import Mathlib

/-!
Shallow embedding of the Figma-to-HTML converter (`src/converter.ts`,
class `FigmaToHtmlConverter`) together with the data model of
`src/types.ts`.  JavaScript numbers are modelled as rationals, optional
fields as `Option`, and the per-instance mutable state (`cssClasses`,
`classCounter`) is threaded explicitly.  CSS style lines are modelled as
the literal strings the TypeScript code pushes onto its `styles` array,
and the regular-expression tests of the source are implemented as
character-level matchers.
-/

namespace Figma

/-- Data model: `FigmaColor` from `src/types.ts` (r, g, b, a in [0,1]). -/
structure FigmaColor where
  r : ℚ
  g : ℚ
  b : ℚ
  a : ℚ
deriving DecidableEq, Repr

/-- Data model: `BoundingBox` from `src/types.ts`. -/
structure BoundingBox where
  x : ℚ
  y : ℚ
  width : ℚ
  height : ℚ
deriving DecidableEq, Repr

/-- Data model: `Vector` from `src/types.ts` (gradient handle point). -/
structure FVec where
  x : ℚ
  y : ℚ
deriving DecidableEq, Repr

/-- Data model: `ColorStop` from `src/types.ts`. -/
structure ColorStop where
  position : ℚ
  color : FigmaColor
deriving DecidableEq, Repr

/-- Data model: `Paint` from `src/types.ts` (fills and strokes). -/
structure Paint where
  type : String
  color : Option FigmaColor
  opacity : Option ℚ
  visible : Option Bool
  gradientHandlePositions : Option (List FVec)
  gradientStops : Option (List ColorStop)
deriving DecidableEq, Repr

/-- Data model: `TypeStyle` from `src/types.ts` (text styling). -/
structure TypeStyle where
  fontFamily : String
  fontWeight : ℚ
  fontSize : ℚ
  letterSpacing : Option ℚ
  lineHeightPx : Option ℚ
  lineHeightPercent : Option ℚ
  textAlignHorizontal : Option String
  textAlignVertical : Option String
deriving DecidableEq, Repr

/-- Data model: `Effect` from `src/types.ts` (shadows and blurs). -/
structure Effect where
  type : String
  visible : Option Bool
  radius : Option ℚ
  color : Option FigmaColor
  offset : Option FVec
deriving DecidableEq, Repr

/-- Data model: `FigmaNode` from `src/types.ts`.  The recursive
`children` field is a plain list; an absent `children` array behaves
exactly like an empty one in every use site of the source
(`node.children && node.children.length > 0`), so the embedding uses
`[]` for both.  `rectangleCornerRadii` and `clipsContent` are accessed
by the converter through `(node as any)` and are included here. -/
inductive FigmaNode where
  | mk
    (id : String)
    (name : String)
    (type : String)
    (children : List FigmaNode)
    (absoluteBoundingBox : Option BoundingBox)
    (fills : Option (List Paint))
    (strokes : Option (List Paint))
    (strokeWeight : Option ℚ)
    (strokeAlign : Option String)
    (cornerRadius : Option ℚ)
    (rectangleCornerRadii : Option (List ℚ))
    (characters : Option String)
    (style : Option TypeStyle)
    (effects : Option (List Effect))
    (opacity : Option ℚ)
    (layoutMode : Option String)
    (itemSpacing : Option ℚ)
    (paddingLeft : Option ℚ)
    (paddingRight : Option ℚ)
    (paddingTop : Option ℚ)
    (paddingBottom : Option ℚ)
    (primaryAxisAlignItems : Option String)
    (counterAxisAlignItems : Option String)
    (visible : Option Bool)
    (clipsContent : Option Bool)

namespace FigmaNode

/-- Projection for the `id` field. -/
def id : FigmaNode → String
  | mk i _ _ _ _ _ _ _ _ _ _ _ _ _ _ _ _ _ _ _ _ _ _ _ _ => i

/-- Projection for the `name` field. -/
def name : FigmaNode → String
  | mk _ n _ _ _ _ _ _ _ _ _ _ _ _ _ _ _ _ _ _ _ _ _ _ _ => n

/-- Projection for the `type` field. -/
def type : FigmaNode → String
  | mk _ _ t _ _ _ _ _ _ _ _ _ _ _ _ _ _ _ _ _ _ _ _ _ _ => t

/-- Projection for the `children` field. -/
def children : FigmaNode → List FigmaNode
  | mk _ _ _ c _ _ _ _ _ _ _ _ _ _ _ _ _ _ _ _ _ _ _ _ _ => c

/-- Projection for the `absoluteBoundingBox` field. -/
def absoluteBoundingBox : FigmaNode → Option BoundingBox
  | mk _ _ _ _ b _ _ _ _ _ _ _ _ _ _ _ _ _ _ _ _ _ _ _ _ => b

/-- Projection for the `fills` field. -/
def fills : FigmaNode → Option (List Paint)
  | mk _ _ _ _ _ f _ _ _ _ _ _ _ _ _ _ _ _ _ _ _ _ _ _ _ => f

/-- Projection for the `strokes` field. -/
def strokes : FigmaNode → Option (List Paint)
  | mk _ _ _ _ _ _ s _ _ _ _ _ _ _ _ _ _ _ _ _ _ _ _ _ _ => s

/-- Projection for the `strokeWeight` field. -/
def strokeWeight : FigmaNode → Option ℚ
  | mk _ _ _ _ _ _ _ w _ _ _ _ _ _ _ _ _ _ _ _ _ _ _ _ _ => w

/-- Projection for the `strokeAlign` field. -/
def strokeAlign : FigmaNode → Option String
  | mk _ _ _ _ _ _ _ _ a _ _ _ _ _ _ _ _ _ _ _ _ _ _ _ _ => a

/-- Projection for the `cornerRadius` field. -/
def cornerRadius : FigmaNode → Option ℚ
  | mk _ _ _ _ _ _ _ _ _ r _ _ _ _ _ _ _ _ _ _ _ _ _ _ _ => r

/-- Projection for the `rectangleCornerRadii` field. -/
def rectangleCornerRadii : FigmaNode → Option (List ℚ)
  | mk _ _ _ _ _ _ _ _ _ _ r _ _ _ _ _ _ _ _ _ _ _ _ _ _ => r

/-- Projection for the `characters` field. -/
def characters : FigmaNode → Option String
  | mk _ _ _ _ _ _ _ _ _ _ _ c _ _ _ _ _ _ _ _ _ _ _ _ _ => c

/-- Projection for the `style` field. -/
def style : FigmaNode → Option TypeStyle
  | mk _ _ _ _ _ _ _ _ _ _ _ _ s _ _ _ _ _ _ _ _ _ _ _ _ => s

/-- Projection for the `effects` field. -/
def effects : FigmaNode → Option (List Effect)
  | mk _ _ _ _ _ _ _ _ _ _ _ _ _ e _ _ _ _ _ _ _ _ _ _ _ => e

/-- Projection for the `opacity` field. -/
def opacity : FigmaNode → Option ℚ
  | mk _ _ _ _ _ _ _ _ _ _ _ _ _ _ o _ _ _ _ _ _ _ _ _ _ => o

/-- Projection for the `layoutMode` field. -/
def layoutMode : FigmaNode → Option String
  | mk _ _ _ _ _ _ _ _ _ _ _ _ _ _ _ l _ _ _ _ _ _ _ _ _ => l

/-- Projection for the `itemSpacing` field. -/
def itemSpacing : FigmaNode → Option ℚ
  | mk _ _ _ _ _ _ _ _ _ _ _ _ _ _ _ _ s _ _ _ _ _ _ _ _ => s

/-- Projection for the `paddingLeft` field. -/
def paddingLeft : FigmaNode → Option ℚ
  | mk _ _ _ _ _ _ _ _ _ _ _ _ _ _ _ _ _ p _ _ _ _ _ _ _ => p

/-- Projection for the `paddingRight` field. -/
def paddingRight : FigmaNode → Option ℚ
  | mk _ _ _ _ _ _ _ _ _ _ _ _ _ _ _ _ _ _ p _ _ _ _ _ _ => p

/-- Projection for the `paddingTop` field. -/
def paddingTop : FigmaNode → Option ℚ
  | mk _ _ _ _ _ _ _ _ _ _ _ _ _ _ _ _ _ _ _ p _ _ _ _ _ => p

/-- Projection for the `paddingBottom` field. -/
def paddingBottom : FigmaNode → Option ℚ
  | mk _ _ _ _ _ _ _ _ _ _ _ _ _ _ _ _ _ _ _ _ p _ _ _ _ => p

/-- Projection for the `primaryAxisAlignItems` field. -/
def primaryAxisAlignItems : FigmaNode → Option String
  | mk _ _ _ _ _ _ _ _ _ _ _ _ _ _ _ _ _ _ _ _ _ p _ _ _ => p

/-- Projection for the `counterAxisAlignItems` field. -/
def counterAxisAlignItems : FigmaNode → Option String
  | mk _ _ _ _ _ _ _ _ _ _ _ _ _ _ _ _ _ _ _ _ _ _ c _ _ => c

/-- Projection for the `visible` field. -/
def visible : FigmaNode → Option Bool
  | mk _ _ _ _ _ _ _ _ _ _ _ _ _ _ _ _ _ _ _ _ _ _ _ v _ => v

/-- Projection for the `clipsContent` field. -/
def clipsContent : FigmaNode → Option Bool
  | mk _ _ _ _ _ _ _ _ _ _ _ _ _ _ _ _ _ _ _ _ _ _ _ _ c => c

end FigmaNode

/-! ### JavaScript truthiness for optional fields -/

/-- Truthiness of an optional JS number: `undefined` and `0` are falsy. -/
def truthyQ (o : Option ℚ) : Bool :=
  match o with
  | none => false
  | some x => decide (x ≠ 0)

/-- Truthiness of an optional JS string: `undefined` and `""` are falsy. -/
def truthyStr (o : Option String) : Bool :=
  match o with
  | none => false
  | some s => decide (s ≠ "")

/-! ### Number formatting

JavaScript template literals print numbers in their shortest decimal
form (`8` prints as `"8"`, `8.5` as `"8.5"`, `-0.25` as `"-0.25"`).
Every number the converter prints is either an input the theorems pick
or a value of the form `Math.round(x*100)/100`, so it has a finite
decimal expansion; `numToString` reproduces the JS output on such
rationals (the fractional digits are produced with a fuel bound that is
never reached on terminating decimals). -/

/-- Convert a digit (0..9) to its character. -/
def digChar (n : Nat) : Char := Char.ofNat (48 + n)

/-- Decimal digits of a natural number, most significant first.
The first argument is fuel; `natToChars` supplies enough. -/
def natToCharsAux : Nat → Nat → List Char
  | 0, _ => []
  | fuel + 1, n =>
    if n < 10 then [digChar n]
    else natToCharsAux fuel (n / 10) ++ [digChar (n % 10)]

/-- Decimal digits of a natural number, as printed by JavaScript. -/
def natToChars (n : Nat) : List Char := natToCharsAux (n + 1) n

/-- Decimal string of a natural number. -/
def natToString (n : Nat) : String := String.mk (natToChars n)

/-- Decode decimal digits back to a natural number (proof tool used to
invert `natToChars`). -/
def charsToNat (l : List Char) : Nat :=
  l.foldl (fun acc c => acc * 10 + (c.toNat - 48)) 0

/-- Decimal string of an integer, as printed by JavaScript. -/
def intToString (n : ℤ) : String :=
  if n < 0 then "-" ++ natToString n.natAbs else natToString n.natAbs

/-- Fractional digits of a rational `0 ≤ q < 1`, stopping at the first
exact representation; `fuel` bounds the number of digits. -/
def fracChars : Nat → ℚ → List Char
  | 0, _ => []
  | fuel + 1, q =>
    if q = 0 then []
    else
      let d : ℤ := ⌊q * 10⌋
      digChar d.toNat :: fracChars fuel (q * 10 - d)

/-- Decimal string of a rational, as printed by JavaScript for numbers
with a finite decimal expansion. -/
def numToString (q : ℚ) : String :=
  let sign := if q < 0 then "-" else ""
  let aq := |q|
  let ip : Nat := (⌊aq⌋).toNat
  let fr := aq - (ip : ℚ)
  if fr = 0 then sign ++ natToString ip
  else sign ++ natToString ip ++ "." ++ String.mk (fracChars 40 fr)

/-- JavaScript `Math.round`: round half toward positive infinity. -/
def jsRound (q : ℚ) : ℤ := ⌊q + 1 / 2⌋

/-- The converter's pervasive `Math.round(x * 100) / 100` rounding to
the nearest 0.01. -/
def round2 (q : ℚ) : ℚ := (jsRound (q * 100) : ℚ) / 100

end Figma

namespace Figma

/-! ### String utilities

The converter manipulates its `styles` array with `String.includes`,
`Array.find`, `findIndex`, `indexOf`, `splice` and `unshift`, and tests
a handful of regular expressions.  These are implemented here directly
over `List Char` so that every proof can compute with them. -/

/-- Boolean list-prefix test (chars). -/
def listPre : List Char → List Char → Bool
  | [], _ => true
  | _ :: _, [] => false
  | a :: as, b :: bs => a == b && listPre as bs

/-- Boolean list-infix test (chars): `p` occurs contiguously in `l`. -/
def listInf (p : List Char) : List Char → Bool
  | [] => listPre p []
  | l@(_ :: rest) => listPre p l || listInf p rest

/-- Boolean list-suffix test (chars). -/
def listSuf (p l : List Char) : Bool := listPre p.reverse l.reverse

/-- JavaScript `s.includes(pat)`. -/
def strIncludes (s pat : String) : Bool := listInf pat.data s.data

/-- JavaScript `s.startsWith(pat)` (used only in theorem statements to
say "the style list has no declaration of this property"). -/
def strStartsWith (s pat : String) : Bool := listPre pat.data s.data

/-- JavaScript `array.join('\n')`. -/
def joinNL : List String → String
  | [] => ""
  | [s] => s
  | s :: rest => s ++ "\n" ++ joinNL rest

/-- JavaScript `array.join(', ')`. -/
def joinCommaSp : List String → String
  | [] => ""
  | [s] => s
  | s :: rest => s ++ ", " ++ joinCommaSp rest

/-- JavaScript `String.prototype.toLowerCase` (ASCII range). -/
def strToLower (s : String) : String := String.mk (s.data.map Char.toLower)

/-- JavaScript `array.find(p)`. -/
def findFirst (p : α → Bool) : List α → Option α
  | [] => none
  | a :: rest => if p a then some a else findFirst p rest

/-- Model of `styles.findIndex(p)` followed by `styles.splice(idx, 1)`:
remove the first element satisfying `p`, if any. -/
def removeFirstBy (p : α → Bool) : List α → List α
  | [] => []
  | a :: rest => if p a then rest else a :: removeFirstBy p rest

/-- Model of `styles.indexOf(x)` followed by `styles.splice(idx, 1, r…)`:
replace the first element equal to `x` by the block `repl`. -/
def replaceFirstEq (x : String) (repl : List String) : List String → List String
  | [] => []
  | a :: rest => if a == x then repl ++ rest else a :: replaceFirstEq x repl rest

/-- JavaScript `array.splice(n, 0, a)`: insert at index `n` (append when
`n` is past the end). -/
def insertAt (n : Nat) (a : α) (l : List α) : List α :=
  match n, l with
  | 0, l => a :: l
  | _ + 1, [] => [a]
  | m + 1, b :: rest => b :: insertAt m a rest

/-- The character class `[0-9.]` of the radius regexes. -/
def isDigDot (c : Char) : Bool := c.isDigit || c == '.'

/-- The character class `\s` (whitespace) of the border regexes. -/
def isSpaceCh (c : Char) : Bool := c == ' ' || c == '\t' || c == '\n' || c == '\r'

/-- Drop a leading literal, or fail. -/
def eatLit : List Char → List Char → Option (List Char)
  | [], s => some s
  | _ :: _, [] => none
  | c :: cs, a :: as => if a == c then eatLit cs as else none

/-- Greedily drop characters satisfying `p` (a `*` repetition whose
class excludes the character that follows it in every regex used by the
source, so greedy matching is exact). -/
def eatWhile (p : Char → Bool) : List Char → List Char
  | [] => []
  | a :: as => if p a then eatWhile p as else a :: as

/-- Like `eatWhile` but requires at least one character (`+`). -/
def eatWhile1 (p : Char → Bool) (s : List Char) : Option (List Char) :=
  match s with
  | [] => none
  | a :: as => if p a then some (eatWhile p as) else none

/-- One character of the class `[^0]`. -/
def eatNonZero : List Char → Option (List Char)
  | [] => none
  | a :: as => if a == '0' then none else some as

/-- One character of the class `[^0\s]`. -/
def eatNonZeroNonSpace : List Char → Option (List Char)
  | [] => none
  | a :: as => if a == '0' || isSpaceCh a then none else some as

/-- The anchored regex `/^[^0][0-9.]*px [^0][0-9.]*px 0px 0px$/` the
converter runs against `radiiString` ("top corners rounded only"). -/
def matchTopAnchored (s : String) : Bool :=
  (Option.isSome <| do
    let r ← eatNonZero s.data
    let r := eatWhile isDigDot r
    let r ← eatLit "px ".data r
    let r ← eatNonZero r
    let r := eatWhile isDigDot r
    let r ← eatLit "px ".data r
    let r ← eatLit "0px 0px".data r
    if r.isEmpty then some () else none)

/-- The anchored regex `/^0px 0px [^0][0-9.]*px [^0][0-9.]*px$/` the
converter runs against `radiiString` ("bottom corners rounded only"). -/
def matchBottomAnchored (s : String) : Bool :=
  (Option.isSome <| do
    let r ← eatLit "0px 0px ".data s.data
    let r ← eatNonZero r
    let r := eatWhile isDigDot r
    let r ← eatLit "px ".data r
    let r ← eatNonZero r
    let r := eatWhile isDigDot r
    let r ← eatLit "px".data r
    if r.isEmpty then some () else none)

/-- The regex `/^\s*border:\s*\d/` used to find a shorthand border line. -/
def matchBorderLine (s : String) : Bool :=
  (Option.isSome <| do
    let r := eatWhile isSpaceCh s.data
    let r ← eatLit "border:".data r
    let r := eatWhile isSpaceCh r
    match r with
    | [] => none
    | c :: _ => if c.isDigit then some () else none)

/-- Body of the unanchored search regex
`/border-radius:\s*[^0\s][0-9.]*px\s+[^0\s][0-9.]*px\s+0px\s+0px/`
tried at one start position. -/
def topSearchAt (s : List Char) : Bool :=
  (Option.isSome <| do
    let r ← eatLit "border-radius:".data s
    let r := eatWhile isSpaceCh r
    let r ← eatNonZeroNonSpace r
    let r := eatWhile isDigDot r
    let r ← eatLit "px".data r
    let r ← eatWhile1 isSpaceCh r
    let r ← eatNonZeroNonSpace r
    let r := eatWhile isDigDot r
    let r ← eatLit "px".data r
    let r ← eatWhile1 isSpaceCh r
    let r ← eatLit "0px".data r
    let r ← eatWhile1 isSpaceCh r
    let _ ← eatLit "0px".data r
    some ())

/-- Body of the unanchored search regex
`/border-radius:\s*0px\s+0px\s+[^0\s][0-9.]*px\s+[^0\s][0-9.]*px/`
tried at one start position. -/
def bottomSearchAt (s : List Char) : Bool :=
  (Option.isSome <| do
    let r ← eatLit "border-radius:".data s
    let r := eatWhile isSpaceCh r
    let r ← eatLit "0px".data r
    let r ← eatWhile1 isSpaceCh r
    let r ← eatLit "0px".data r
    let r ← eatWhile1 isSpaceCh r
    let r ← eatNonZeroNonSpace r
    let r := eatWhile isDigDot r
    let r ← eatLit "px".data r
    let r ← eatWhile1 isSpaceCh r
    let r ← eatNonZeroNonSpace r
    let r := eatWhile isDigDot r
    let _ ← eatLit "px".data r
    some ())

/-- Run an unanchored single-position matcher at every start position
(leftmost first), as the JS regex engine does. -/
def searchAnywhere (m : List Char → Bool) : List Char → Bool
  | [] => m []
  | l@(_ :: rest) => m l || searchAnywhere m rest

/-- Unanchored test of the "top rounded only" pattern against a whole
style line (`borderRadiusLine.match(...)` at line 510 of the source). -/
def searchTop (s : String) : Bool := searchAnywhere topSearchAt s.data

/-- Unanchored test of the "bottom rounded only" pattern against a whole
style line (line 524 of the source). -/
def searchBottom (s : String) : Bool := searchAnywhere bottomSearchAt s.data

/-- Split off everything before the last `';'` (the greedy `(.+);` of
the border-capture regex): returns the characters before the last
semicolon provided there is at least one. -/
def upToLastSemi (s : List Char) : Option (List Char) :=
  match s with
  | [] => none
  | a :: as =>
    match upToLastSemi as with
    | some r => some (a :: r)
    | none => if a == ';' then some [] else none

/-- The capture regex `/border:\s*(\d+(?:\.\d+)?px)\s+solid\s+(.+);/`
tried at one start position; returns (weight-with-px, color). -/
def borderCaptureAt (s : List Char) : Option (String × String) := do
  let r ← eatLit "border:".data s
  let r := eatWhile isSpaceCh r
  let d1 ← eatWhile1 Char.isDigit r
  let digits1 := r.take (r.length - d1.length)
  let (frac, r2) ←
    match d1 with
    | '.' :: rest =>
      match eatWhile1 Char.isDigit rest with
      | some r3 => some ('.' :: rest.take (rest.length - r3.length), r3)
      | none => some (([] : List Char), d1)
    | _ => some (([] : List Char), d1)
  let r4 ← eatLit "px".data r2
  let weight := String.mk (digits1 ++ frac ++ "px".data)
  let r5 ← eatWhile1 isSpaceCh r4
  let r6 ← eatLit "solid".data r5
  let r7 ← eatWhile1 isSpaceCh r6
  match upToLastSemi r7 with
  | some color => if color.isEmpty then none else some (weight, String.mk color)
  | none => none

/-- Run the border-capture regex unanchored (leftmost match), as
`borderLine.match(...)` does at line 511 of the source. -/
def borderCapture (s : List Char) : Option (String × String) :=
  match s with
  | [] => borderCaptureAt []
  | l@(_ :: rest) =>
    match borderCaptureAt l with
    | some r => some r
    | none => borderCapture rest

end Figma

namespace Figma

/-! ### Color and gradient emission -/

/-- The effective alpha of `rgbaToString`: the fill-level `opacity`
when defined (`opacity !== undefined`), else the color's own alpha. -/
def effAlpha (color : FigmaColor) (opacity : Option ℚ) : ℚ :=
  match opacity with
  | some o => o
  | none => color.a

/-- Lines 536-546 of the source, `rgbaToString`: channels are rounded to
8-bit integers; the effective alpha is the fill-level `opacity` when
defined (`opacity !== undefined`), else the color's own alpha; alpha
exactly 1 selects the `rgb(...)` form. -/
def rgbaToString (color : FigmaColor) (opacity : Option ℚ) : String :=
  let r := jsRound (color.r * 255)
  let g := jsRound (color.g * 255)
  let b := jsRound (color.b * 255)
  let a := match opacity with | some o => o | none => color.a
  if a = 1 then
    "rgb(" ++ intToString r ++ ", " ++ intToString g ++ ", " ++ intToString b ++ ")"
  else
    "rgba(" ++ intToString r ++ ", " ++ intToString g ++ ", " ++ intToString b ++ ", " ++
      numToString a ++ ")"

/-- Stand-in for the floating-point angle computation
`Math.atan2(dy, dx) * (180 / Math.PI) + 90` at line 563 of the source.
Floating-point trigonometry has no exact rational counterpart; no claim
depends on the printed digits of the angle, only on the control flow
around it (default 90 when fewer than two handles, the stop-list
format), so the embedding uses a crude rational arctangent
approximation with the same signs and octants. -/
def atan2Deg (dy dx : ℚ) : ℚ :=
  if dx = 0 ∧ dy = 0 then 0
  else if |dy| ≤ |dx| then
    let t := dy / dx
    if dx > 0 then 45 * t else if dy ≥ 0 then 180 + 45 * t else 45 * t - 180
  else
    let t := dx / dy
    if dy > 0 then 90 - 45 * t else -90 - 45 * t

/-- Lines 551-575 of the source, `generateLinearGradient`: missing stops
or missing handles (JS falsy test: `undefined`; an array, even empty,
is truthy) degrade to `'transparent'`; with fewer than two handles the
angle defaults to 90; each stop prints as `<color> <position%>` with the
position rounded to an integer percent. -/
def generateLinearGradient (fill : Paint) : String :=
  match fill.gradientStops, fill.gradientHandlePositions with
  | some stops, some handles =>
    let angle : ℚ :=
      match handles with
      | h0 :: h1 :: _ => atan2Deg (h1.y - h0.y) (h1.x - h0.x) + 90
      | _ => 90
    let stopStrs := stops.map fun stop =>
      rgbaToString stop.color none ++ " " ++ intToString (jsRound (stop.position * 100)) ++ "%"
    "linear-gradient(" ++ numToString angle ++ "deg, " ++ joinCommaSp stopStrs ++ ")"
  | _, _ => "transparent"

/-! ### Markup helpers -/

/-- Lines 580-589 of the source, `escapeHtml`, per character. -/
def escapeChar (c : Char) : String :=
  if c = '&' then "&amp;"
  else if c = '<' then "&lt;"
  else if c = '>' then "&gt;"
  else if c = '"' then "&quot;"
  else if c = Char.ofNat 39 then "&#039;"
  else String.mk [c]

/-- Lines 580-589 of the source, `escapeHtml`. -/
def escapeHtml (s : String) : String := String.join (s.data.map escapeChar)

/-- JavaScript `'  '.repeat(depth)`. -/
def indentStr : Nat → String
  | 0 => ""
  | d + 1 => "  " ++ indentStr d

/-! ### The style blocks of `generateNodeStyles` (lines 190-531)

The source builds one `styles: string[]` by pushing lines in program
order and occasionally reading or editing the array built so far.  Each
contiguous region of `generateNodeStyles` is one definition here;
regions that only push lines return the pushed lines, regions that also
inspect or edit the array (`text`, `layout`, the final post-process)
transform the whole list. -/

/-- Lines 194-239: position and size.  Absent bounding box pushes
nothing. -/
def posSizeBlock (node : FigmaNode) (parent : Option FigmaNode) : List String :=
  match node.absoluteBoundingBox with
  | none => []
  | some box =>
    let lt : ℚ × ℚ :=
      match parent with
      | some p =>
        match p.absoluteBoundingBox with
        | some pb =>
          let l := box.x - pb.x
          let t := box.y - pb.y
          let l := if truthyQ p.paddingLeft then l - p.paddingLeft.getD 0 else l
          let t := if truthyQ p.paddingTop then t - p.paddingTop.getD 0 else t
          (l, t)
        | none => (box.x, box.y)
      | none => (box.x, box.y)
    let parentUsesAutoLayout :=
      match parent with
      | some p => truthyStr p.layoutMode
      | none => false
    let posLines :=
      match parent with
      | none => ["  position: relative;"]
      | some _ =>
        if parentUsesAutoLayout then ["  position: relative;"]
        else
          ["  position: absolute;",
           "  left: " ++ numToString (round2 lt.1) ++ "px;",
           "  top: " ++ numToString (round2 lt.2) ++ "px;"]
    posLines ++
      ["  width: " ++ numToString (round2 box.width) ++ "px;"] ++
      (if node.type ≠ "TEXT" then
        ["  height: " ++ numToString (round2 box.height) ++ "px;"]
      else
        ["  min-height: " ++ numToString (round2 box.height) ++ "px;"])

/-- Lines 242-253: background from the first fill (later fills ignored;
fills with `visible === false` skipped). -/
def fillBlock (node : FigmaNode) : List String :=
  match node.fills with
  | some (fill :: _) =>
    if fill.visible = some false then []
    else if fill.type = "SOLID" ∧ fill.color.isSome then
      match fill.color with
      | some c => ["  background-color: " ++ rgbaToString c fill.opacity ++ ";"]
      | none => []
    else if fill.type = "GRADIENT_LINEAR" ∧ fill.gradientStops.isSome then
      ["  background: " ++ generateLinearGradient fill ++ ";"]
    else []
  | _ => []

/-- The `borderRadiusInfo` record of lines 255-256. -/
structure RadiusInfo where
  hasTopRadius : Bool
  hasBottomRadius : Bool
  radiiString : String
deriving DecidableEq, Repr

/-- Lines 255-279: corner-radius analysis before the regex force-check.
`rectangleCornerRadii` (when present, even with the wrong length) takes
priority over the uniform `cornerRadius`. -/
def radiusInfoRaw (node : FigmaNode) : RadiusInfo :=
  match node.rectangleCornerRadii with
  | some [a, b, c, d] =>
    let tl := round2 a
    let tr := round2 b
    let br := round2 c
    let bl := round2 d
    let rs :=
      if tl ≠ tr ∨ tr ≠ br ∨ br ≠ bl ∨ tl ≠ 0 then
        numToString tl ++ "px " ++ numToString tr ++ "px " ++
          numToString br ++ "px " ++ numToString bl ++ "px"
      else ""
    ⟨decide (0 < tl) || decide (0 < tr), decide (0 < br) || decide (0 < bl), rs⟩
  | some _ => ⟨false, false, ""⟩
  | none =>
    match node.cornerRadius with
    | some r =>
      if 0 < r then
        let radius := round2 r
        ⟨true, true, numToString radius ++ "px"⟩
      else ⟨false, false, ""⟩
    | none => ⟨false, false, ""⟩

/-- Lines 281-293: the regex force-check of the radius pattern
("critical for stacked inputs"). -/
def radiusInfo (node : FigmaNode) : RadiusInfo :=
  let info := radiusInfoRaw node
  if info.radiiString ≠ "" then
    if matchTopAnchored info.radiiString then ⟨true, false, info.radiiString⟩
    else if matchBottomAnchored info.radiiString then ⟨false, true, info.radiiString⟩
    else info
  else info

/-- Lines 296-334: strokes.  Only the first stroke is considered, and
only when `strokeWeight` is truthy, the stroke is not explicitly
invisible and it has a color; `strokeAlign` defaults to INSIDE under JS
falsiness. -/
def strokeBlock (node : FigmaNode) (info : RadiusInfo) : List String :=
  match node.strokes with
  | some (stroke :: _) =>
    if truthyQ node.strokeWeight then
      if stroke.visible = some false then []
      else
        match stroke.color with
        | some c =>
          let color := rgbaToString c stroke.opacity
          let weight := round2 (node.strokeWeight.getD 0)
          let align :=
            match node.strokeAlign with
            | some s => if s = "" then "INSIDE" else s
            | none => "INSIDE"
          if align = "INSIDE" then
            ["  box-sizing: border-box;"] ++
            (if info.hasTopRadius && !info.hasBottomRadius then
              ["  border-left: " ++ numToString weight ++ "px solid " ++ color ++ ";",
               "  border-right: " ++ numToString weight ++ "px solid " ++ color ++ ";",
               "  border-top: " ++ numToString weight ++ "px solid " ++ color ++ ";"]
            else if !info.hasTopRadius && info.hasBottomRadius then
              ["  border-left: " ++ numToString weight ++ "px solid " ++ color ++ ";",
               "  border-right: " ++ numToString weight ++ "px solid " ++ color ++ ";",
               "  border-bottom: " ++ numToString weight ++ "px solid " ++ color ++ ";"]
            else
              ["  border: " ++ numToString weight ++ "px solid " ++ color ++ ";"])
          else if align = "CENTER" then
            ["  border: " ++ numToString weight ++ "px solid " ++ color ++ ";"]
          else
            ["  box-shadow: 0 0 0 " ++ numToString weight ++ "px " ++ color ++ ";"]
        | none => []
    else []
  | _ => []

/-- Lines 337-339: emit the radius string when nonempty. -/
def radiusPushBlock (info : RadiusInfo) : List String :=
  if info.radiiString ≠ "" then ["  border-radius: " ++ info.radiiString ++ ";"] else []

/-- Lines 342-344: node opacity, only when strictly below 1. -/
def opacityBlock (node : FigmaNode) : List String :=
  match node.opacity with
  | some o => if o < 1 then ["  opacity: " ++ numToString o ++ ";"] else []
  | none => []

/-- Lines 349-361: the unconditional and metric font lines of the text
block. -/
def textFontLines (ts : TypeStyle) : List String :=
  ["  font-family: \"" ++ ts.fontFamily ++ "\", sans-serif;",
   "  font-size: " ++ numToString (round2 ts.fontSize) ++ "px;",
   "  font-weight: " ++ numToString ts.fontWeight ++ ";"] ++
  (if truthyQ ts.letterSpacing then
    ["  letter-spacing: " ++ numToString (round2 (ts.letterSpacing.getD 0)) ++ "px;"]
  else []) ++
  (if truthyQ ts.lineHeightPx then
    ["  line-height: " ++ numToString (round2 (ts.lineHeightPx.getD 0)) ++ "px;"]
  else if truthyQ ts.lineHeightPercent then
    ["  line-height: " ++ numToString ((jsRound (ts.lineHeightPercent.getD 0) : ℚ) / 100) ++ ";"]
  else [])

/-- Lines 363-375: horizontal text alignment; reads the accumulated
list for the `display: flex` mutual-exclusion check. -/
def textAlignH (ts : TypeStyle) (styles0 : List String) : List String :=
  if truthyStr ts.textAlignHorizontal then
    let align := strToLower (ts.textAlignHorizontal.getD "")
    let styles := styles0 ++ ["  text-align: " ++ align ++ ";"]
    if align = "center" then
      let hasFlex := styles.any fun s => strIncludes s "display: flex"
      let styles := if !hasFlex then styles ++ ["  display: flex;"] else styles
      styles ++ ["  justify-content: center;"]
    else styles
  else styles0

/-- Lines 377-390: vertical text alignment, with the same flex guard. -/
def textAlignV (ts : TypeStyle) (styles : List String) : List String :=
  if truthyStr ts.textAlignVertical then
    let v := ts.textAlignVertical.getD ""
    let hasFlex := styles.any fun s => strIncludes s "display: flex"
    let styles2 := if !hasFlex then styles ++ ["  display: flex;"] else styles
    if v = "TOP" then styles2 ++ ["  align-items: flex-start;"]
    else if v = "CENTER" then styles2 ++ ["  align-items: center;"]
    else if v = "BOTTOM" then styles2 ++ ["  align-items: flex-end;"]
    else styles2
  else styles

/-- Lines 363-390: both text-alignment passes. -/
def textAlignApply (ts : TypeStyle) (styles0 : List String) : List String :=
  textAlignV ts (textAlignH ts styles0)

/-- Lines 392-404: text color from the first fill (no visibility check,
unlike the background path), followed by removal of the first line
containing `background-color`. -/
def textColorApply (node : FigmaNode) (styles0 : List String) : List String :=
  match node.fills with
  | some (fill :: _) =>
    if fill.type = "SOLID" ∧ fill.color.isSome then
      match fill.color with
      | some c =>
        removeFirstBy (fun s => strIncludes s "background-color")
          (styles0 ++ ["  color: " ++ rgbaToString c fill.opacity ++ ";"])
      | none => styles0
    else styles0
  | _ => styles0

/-- Lines 347-409: text styling; transforms the accumulated list because
the source reads it (`display: flex` checks) and edits it (removal of a
`background-color` line once a text color is set). -/
def textBlockApply (node : FigmaNode) (styles0 : List String) : List String :=
  if node.type = "TEXT" then
    match node.style with
    | some ts =>
      textColorApply node (textAlignApply ts (styles0 ++ textFontLines ts)) ++
        ["  white-space: pre-wrap;", "  word-wrap: break-word;"]
    | none => styles0
  else styles0

/-- Lines 413-452: the flex lines an auto-layout container pushes. -/
def layoutFlexLines (node : FigmaNode) : List String :=
  let lm := node.layoutMode.getD ""
  ["  display: flex;"] ++
  (if lm = "HORIZONTAL" then ["  flex-direction: row;"]
  else if lm = "VERTICAL" then ["  flex-direction: column;"]
  else []) ++
  (if truthyQ node.itemSpacing then
    ["  gap: " ++ numToString (round2 (node.itemSpacing.getD 0)) ++ "px;"]
  else []) ++
  (if truthyQ node.paddingLeft || truthyQ node.paddingRight ||
      truthyQ node.paddingTop || truthyQ node.paddingBottom then
    ["  padding: " ++ numToString (round2 (node.paddingTop.getD 0)) ++ "px " ++
      numToString (round2 (node.paddingRight.getD 0)) ++ "px " ++
      numToString (round2 (node.paddingBottom.getD 0)) ++ "px " ++
      numToString (round2 (node.paddingLeft.getD 0)) ++ "px;"]
  else []) ++
  (if truthyStr node.primaryAxisAlignItems then
    let v := node.primaryAxisAlignItems.getD ""
    let a :=
      if v = "MIN" then "flex-start"
      else if v = "CENTER" then "center"
      else if v = "MAX" then "flex-end"
      else if v = "SPACE_BETWEEN" then "space-between"
      else "flex-start"
    ["  justify-content: " ++ a ++ ";"]
  else []) ++
  (if truthyStr node.counterAxisAlignItems then
    let v := node.counterAxisAlignItems.getD ""
    let a :=
      if v = "MIN" then "flex-start"
      else if v = "CENTER" then "center"
      else if v = "MAX" then "flex-end"
      else "flex-start"
    ["  align-items: " ++ a ++ ";"]
  else [])

/-- Lines 454-470: force auto-layout containers under a parent into
absolute positioning when no `position:` rule exists yet. -/
def layoutPositionApply (node : FigmaNode) (parent : Option FigmaNode)
    (styles : List String) : List String :=
  match parent with
  | none => styles
  | some p =>
    if styles.any fun s => strIncludes s "position:" then styles
    else
      let styles := "  position: absolute;" :: styles
      match node.absoluteBoundingBox, p.absoluteBoundingBox with
      | some b, some pb =>
        let left := round2 (b.x - pb.x)
        let top := round2 (b.y - pb.y)
        let styles :=
          if left ≠ 0 then insertAt 1 ("  left: " ++ numToString left ++ "px;") styles
          else styles
        if top ≠ 0 then
          insertAt (if left ≠ 0 then 2 else 1) ("  top: " ++ numToString top ++ "px;") styles
        else styles
      | _, _ => styles

/-- Lines 412-471: auto-layout (flexbox); transforms the accumulated
list because the source prepends/inserts positioning lines when no
`position:` line exists yet. -/
def layoutBlockApply (node : FigmaNode) (parent : Option FigmaNode)
    (styles0 : List String) : List String :=
  if truthyStr node.layoutMode then
    layoutPositionApply node parent (styles0 ++ layoutFlexLines node)
  else styles0

/-- One effect's shadow term (lines 476-491); `(effect.offset.x || 0)`
is the identity on our total numeric model. -/
def effectShadow (e : Effect) : Option String :=
  if e.visible = some false then none
  else if e.type = "DROP_SHADOW" then
    match e.offset, e.color with
    | some off, some c =>
      some (numToString (round2 off.x) ++ "px " ++ numToString (round2 off.y) ++ "px " ++
        numToString (round2 (e.radius.getD 0)) ++ "px " ++ rgbaToString c none)
    | _, _ => none
  else if e.type = "INNER_SHADOW" then
    match e.offset, e.color with
    | some off, some c =>
      some ("inset " ++ numToString (round2 off.x) ++ "px " ++ numToString (round2 off.y) ++
        "px " ++ numToString (round2 (e.radius.getD 0)) ++ "px " ++ rgbaToString c none)
    | _, _ => none
  else none

/-- Lines 474-496: all visible shadow effects joined into one rule. -/
def effectsBlock (node : FigmaNode) : List String :=
  match node.effects with
  | some effs =>
    if effs.length > 0 then
      let shadows := effs.filterMap effectShadow
      if shadows.length > 0 then ["  box-shadow: " ++ joinCommaSp shadows ++ ";"] else []
    else []
  | none => []

/-- Lines 499-501: overflow for clipping containers. -/
def clipBlock (node : FigmaNode) : List String :=
  if node.clipsContent = some true then ["  overflow: hidden;"] else []

/-- Lines 503-528: the double-border post-process.  When a shorthand
`border:` line and a `border-radius:` line matching the "top rounded
only" pattern coexist, the shorthand is replaced by left/right/top
sides; the "bottom rounded only" branch deliberately keeps the list
unchanged. -/
def postProcess (styles : List String) : List String :=
  let borderRadiusLine := findFirst (fun s => strIncludes s "border-radius:") styles
  let borderLine := findFirst matchBorderLine styles
  match borderRadiusLine, borderLine with
  | some brl, some bl =>
    if searchTop brl then
      match borderCapture bl.data with
      | some (weight, color) =>
        replaceFirstEq bl
          ["  border-left: " ++ weight ++ " solid " ++ color ++ ";",
           "  border-right: " ++ weight ++ " solid " ++ color ++ ";",
           "  border-top: " ++ weight ++ " solid " ++ color ++ ";"] styles
      | none => styles
    else styles
  | _, _ => styles

/-- Lines 190-531, `generateNodeStyles`, before the final join: the
style lines for one node in push order. -/
def generateNodeStylesList (node : FigmaNode) (parent : Option FigmaNode) : List String :=
  let info := radiusInfo node
  let styles := posSizeBlock node parent
  let styles := styles ++ fillBlock node
  let styles := styles ++ strokeBlock node info
  let styles := styles ++ radiusPushBlock info
  let styles := styles ++ opacityBlock node
  let styles := textBlockApply node styles
  let styles := layoutBlockApply node parent styles
  let styles := styles ++ effectsBlock node
  let styles := styles ++ clipBlock node
  postProcess styles

/-- Line 530: `styles.join('\n')`. -/
def generateNodeStyles (node : FigmaNode) (parent : Option FigmaNode) : String :=
  joinNL (generateNodeStylesList node parent)

/-- The style list as it stands after line 501, before the double-border
post-process of lines 503-528. -/
def generateNodeStylesPre (node : FigmaNode) (parent : Option FigmaNode) : List String :=
  let info := radiusInfo node
  let styles := posSizeBlock node parent
  let styles := styles ++ fillBlock node
  let styles := styles ++ strokeBlock node info
  let styles := styles ++ radiusPushBlock info
  let styles := styles ++ opacityBlock node
  let styles := textBlockApply node styles
  let styles := layoutBlockApply node parent styles
  let styles := styles ++ effectsBlock node
  styles ++ clipBlock node

end Figma

namespace Figma

/-! ### Traversal: `convertWithStyles` and friends (lines 103-167) -/

/-- One element of the `nodeStyles` side channel
(`{ className, node, parent }`, line 107). -/
structure StyleEntry where
  className : String
  node : FigmaNode
  parent : Option FigmaNode

/-- The per-instance mutable state of `FigmaToHtmlConverter`:
`cssClasses: Map<string, string>` (insertion-ordered, keyed by node id)
and `classCounter: number`. -/
structure ConverterState where
  cssClasses : List (String × String)
  classCounter : Nat
deriving DecidableEq, Repr

/-- `Map.get`/`Map.has` on the insertion-ordered class map. -/
def lookupClass (m : List (String × String)) (k : String) : Option String :=
  match m with
  | [] => none
  | (k2, v) :: rest => if k2 = k then some v else lookupClass rest k

/-- Lines 78-86, `getClassName`: reuse the class assigned to this node
id, else mint `figma-node-<counter>` and bump the counter. -/
def getClassName (st : ConverterState) (node : FigmaNode) : String × ConverterState :=
  match lookupClass st.cssClasses node.id with
  | some c => (c, st)
  | none =>
    let c := "figma-node-" ++ natToString st.classCounter
    (c, ⟨st.cssClasses ++ [(node.id, c)], st.classCounter + 1⟩)

/-- The classes minted so far are exactly `figma-node-0` ..
`figma-node-(classCounter - 1)`, in order. -/
def classMapSpec (st : ConverterState) : Prop :=
  st.cssClasses.map Prod.snd =
    (List.range st.classCounter).map fun k => "figma-node-" ++ natToString k

/-- The container arms of the `switch` (lines 140-146). -/
def isContainerType (t : String) : Bool :=
  t == "RECTANGLE" || t == "ELLIPSE" || t == "VECTOR" || t == "FRAME" ||
    t == "GROUP" || t == "INSTANCE" || t == "COMPONENT"

mutual
/-- Lines 118-167, `generateHtmlWithStyles`: returns the markup string,
the `nodeStyles` entries pushed (in push order), and the updated
converter state.  DOCUMENT/CANVAS recurse without a parent argument
(line 130); unrecognized kinds pass the parent through (line 163). -/
def generateHtmlWithStyles :
    FigmaNode → Nat → Option FigmaNode → ConverterState →
      String × List StyleEntry × ConverterState
  | node@(.mk _ _ _ cs _ _ _ _ _ _ _ _ _ _ _ _ _ _ _ _ _ _ _ _ _), depth, parent, st =>
    if node.visible = some false then ("", [], st)
    else if node.type = "DOCUMENT" ∨ node.type = "CANVAS" then
      if cs.length > 0 then
        let r := genChildren cs depth none st
        (joinNL r.1, r.2.1, r.2.2)
      else ("", [], st)
    else if node.type = "TEXT" then
      let cn := getClassName st node
      let text := node.characters.getD ""
      (indentStr depth ++ "<div class=\"" ++ cn.1 ++ "\">" ++ escapeHtml text ++ "</div>",
        [⟨cn.1, node, parent⟩], cn.2)
    else if isContainerType node.type then
      let cn := getClassName st node
      if cs.length > 0 then
        let r := genChildren cs (depth + 1) (some node) cn.2
        (indentStr depth ++ "<div class=\"" ++ cn.1 ++ "\">" ++ "\n" ++ joinNL r.1 ++
            "\n" ++ indentStr depth ++ "</div>",
          ⟨cn.1, node, parent⟩ :: r.2.1, r.2.2)
      else
        (indentStr depth ++ "<div class=\"" ++ cn.1 ++ "\">" ++ "</div>",
          [⟨cn.1, node, parent⟩], cn.2)
    else
      if cs.length > 0 then
        let r := genChildren cs depth parent st
        (joinNL r.1, r.2.1, r.2.2)
      else ("", [], st)

/-- The sequential `children.map(...)` of the source: each child's
markup string is kept separately (the caller joins with newlines, so an
invisible child still occupies one empty slot), entries and state are
threaded left to right. -/
def genChildren :
    List FigmaNode → Nat → Option FigmaNode → ConverterState →
      List String × List StyleEntry × ConverterState
  | [], _, _, st => ([], [], st)
  | c :: rest, depth, parent, st =>
    let r1 := generateHtmlWithStyles c depth parent st
    let r2 := genChildren rest depth parent r1.2.2
    (r1.1 :: r2.1, r1.2.1 ++ r2.2.1, r2.2.2)
end

/-- The stylesheet header of `generateCssFromNodes` (lines 173-175). -/
def cssHeader : String :=
  "/* Generated CSS from Figma */\n\n" ++
  "* \x7b\n  box-sizing: border-box;\n\x7d\n\n" ++
  "body \x7b\n  margin: 0;\n  padding: 0;\n  font-family: -apple-system, " ++
  "BlinkMacSystemFont, \"Segoe UI\", Roboto, sans-serif;\n  display: flex;\n" ++
  "  justify-content: center;\n  align-items: center;\n  min-height: 100vh;\n" ++
  "  background-color: #f5f5f5;\n\x7d\n\n"

/-- The per-entry rule blocks of the loop at lines 177-182: one
`.class { ... }` block per entry whose generated style text is nonempty
(the `if (styles)` test skips entries with empty style text). -/
def cssBlocks (entries : List StyleEntry) : List String :=
  entries.filterMap fun e =>
    let styles := generateNodeStyles e.node e.parent
    if styles = "" then none
    else some ("." ++ e.className ++ " \x7b\n" ++ styles ++ "\x7d\n\n")

/-- Lines 172-185, `generateCssFromNodes`. -/
def generateCssFromNodes (entries : List StyleEntry) : String :=
  cssHeader ++ String.join (cssBlocks entries)

/-- Lines 103-113, `convertWithStyles`: clears the per-run state, walks
the tree, and emits markup plus stylesheet.  The updated converter state
is returned explicitly. -/
def convertWithStyles (st : ConverterState) (node : FigmaNode) :
    (String × String) × ConverterState :=
  let _ := st
  let st0 : ConverterState := ⟨[], 0⟩
  let r := generateHtmlWithStyles node 0 none st0
  ((r.1, generateCssFromNodes r.2.1), r.2.2)

mutual
/-- Number of markup elements (`<div`) emitted for this subtree: one per
visible TEXT or container node, none for DOCUMENT/CANVAS, invisible
nodes and unrecognized pass-through kinds. -/
def emittedElemCount : FigmaNode → Nat
  | node@(.mk _ _ _ cs _ _ _ _ _ _ _ _ _ _ _ _ _ _ _ _ _ _ _ _ _) =>
    if node.visible = some false then 0
    else if node.type = "DOCUMENT" ∨ node.type = "CANVAS" then emittedElemCounts cs
    else if node.type = "TEXT" then 1
    else if isContainerType node.type then 1 + emittedElemCounts cs
    else emittedElemCounts cs

/-- Sum of `emittedElemCount` over a child list. -/
def emittedElemCounts : List FigmaNode → Nat
  | [] => 0
  | c :: rest => emittedElemCount c + emittedElemCounts rest
end

mutual
/-- Size of a node tree (used as the fuel bound in the termination
theorem). -/
def nodeSize : FigmaNode → Nat
  | .mk _ _ _ cs _ _ _ _ _ _ _ _ _ _ _ _ _ _ _ _ _ _ _ _ _ => 1 + nodesSize cs

/-- Size of a list of node trees. -/
def nodesSize : List FigmaNode → Nat
  | [] => 0
  | c :: rest => nodeSize c + nodesSize rest
end

/-- Sequential child processing for the fuel-bounded evaluator, with
the node evaluator passed in (structurally recursive on the list). -/
def runChildren
    (f : FigmaNode → Nat → Option FigmaNode → ConverterState →
      Option (String × List StyleEntry × ConverterState)) :
    List FigmaNode → Nat → Option FigmaNode → ConverterState →
      Option (List String × List StyleEntry × ConverterState)
  | [], _, _, st => some ([], [], st)
  | c :: rest, depth, parent, st =>
    match f c depth parent st with
    | some r1 =>
      match runChildren f rest depth parent r1.2.2 with
      | some r2 => some (r1.1 :: r2.1, r1.2.1 ++ r2.2.1, r2.2.2)
      | none => none
    | none => none

/-- Fuel-bounded variant of `generateHtmlWithStyles`: returns `none`
when the fuel runs out.  `genHtmlFuel_complete` below shows fuel
`nodeSize node` always suffices, which is the formal content of
"the recursion is structural on the children list". -/
def genHtmlFuel :
    Nat → FigmaNode → Nat → Option FigmaNode → ConverterState →
      Option (String × List StyleEntry × ConverterState)
  | 0, _, _, _, _ => none
  | fuel + 1, node, depth, parent, st =>
    if node.visible = some false then some ("", [], st)
    else if node.type = "DOCUMENT" ∨ node.type = "CANVAS" then
      if node.children.length > 0 then
        match runChildren (genHtmlFuel fuel) node.children depth none st with
        | some r => some (joinNL r.1, r.2.1, r.2.2)
        | none => none
      else some ("", [], st)
    else if node.type = "TEXT" then
      let cn := getClassName st node
      let text := node.characters.getD ""
      some (indentStr depth ++ "<div class=\"" ++ cn.1 ++ "\">" ++ escapeHtml text ++ "</div>",
        [⟨cn.1, node, parent⟩], cn.2)
    else if isContainerType node.type then
      let cn := getClassName st node
      if node.children.length > 0 then
        match runChildren (genHtmlFuel fuel) node.children (depth + 1) (some node) cn.2 with
        | some r =>
          some (indentStr depth ++ "<div class=\"" ++ cn.1 ++ "\">" ++ "\n" ++ joinNL r.1 ++
              "\n" ++ indentStr depth ++ "</div>",
            ⟨cn.1, node, parent⟩ :: r.2.1, r.2.2)
        | none => none
      else
        some (indentStr depth ++ "<div class=\"" ++ cn.1 ++ "\">" ++ "</div>",
          [⟨cn.1, node, parent⟩], cn.2)
    else
      if node.children.length > 0 then
        match runChildren (genHtmlFuel fuel) node.children depth parent st with
        | some r => some (joinNL r.1, r.2.1, r.2.2)
        | none => none
      else some ("", [], st)

/-- Fuel-bounded variant of `convertWithStyles`. -/
def convertFuel (fuel : Nat) (st : ConverterState) (node : FigmaNode) :
    Option ((String × String) × ConverterState) :=
  let _ := st
  let st0 : ConverterState := ⟨[], 0⟩
  match genHtmlFuel fuel node 0 none st0 with
  | some r => some ((r.1, generateCssFromNodes r.2.1), r.2.2)
  | none => none

end Figma

namespace Figma

/-! ### Character classes and the occurrence bound

Several proofs need that a pattern such as `"background-color"` cannot
occur inside a style line whose middle part is a printed number or
color.  `canOccurIn` is a decidable necessary condition for
`pat` occurring in `A ++ M ++ B` when every character of the (nonempty)
middle `M` lies in a class `ok`. -/

/-- Characters that can appear in a printed number. -/
def numOK (c : Char) : Bool := c.isDigit || c == '.' || c == '-'

/-- Characters that can appear in a printed color. -/
def colorOK (c : Char) : Bool :=
  numOK c || c == '(' || c == ')' || c == ',' || c == ' ' ||
    c == 'r' || c == 'g' || c == 'b' || c == 'a'

/-- Characters that can appear in any printed paint value (colors,
gradients, shadow terms, `px` suffixes, `solid`, `transparent`). -/
def paintOK (c : Char) : Bool :=
  colorOK c || c == 'p' || c == 'x' || c == 's' || c == 'o' || c == 'l' ||
    c == 'i' || c == 'd' || c == 'e' || c == 'n' || c == 't' || c == '%'

/-- Can pattern `p` be split as `pa ++ pm ++ pb` with `pa` a suffix of
`A`, `pb` a prefix of `B` and `pm` nonempty with all characters in
`ok`?  (The shape of an occurrence of `p` that crosses a nonempty
middle segment.) -/
def midDecomp (p A B : List Char) (ok : Char → Bool) : Bool :=
  (List.range (p.length + 1)).any fun i =>
    (List.range (p.length + 1 - i)).any fun j =>
      let pa := p.take i
      let rest := p.drop i
      let pm := rest.take (rest.length - j)
      let pb := rest.drop (rest.length - j)
      listSuf pa A && listPre pb B && pm.all ok && !pm.isEmpty

/-- Necessary condition for `p` occurring in `A ++ M ++ B` with `M`
nonempty and all of its characters in `ok`. -/
def canOccurIn (p A B : List Char) (ok : Char → Bool) : Bool :=
  listInf p A || listInf p B || midDecomp p A B ok

/-- Does `s` start with one of the given prefixes? -/
def startsOneOf (s : String) (ps : List String) : Bool :=
  ps.any fun p => strStartsWith s p

/-- All characters of a string lie in the class `ok`. -/
def strAll (ok : Char → Bool) (s : String) : Bool := s.data.all ok

/-- The property-name prefixes of every line the text block can add. -/
def textPrefixes : List String :=
  ["  font-family: ", "  font-size: ", "  font-weight: ", "  letter-spacing: ",
   "  line-height: ", "  text-align: ", "  display: ", "  justify-content: ",
   "  align-items: ", "  color: ", "  white-space: ", "  word-wrap: "]

/-- The property-name prefixes of every line the layout block can add. -/
def layoutPrefixes : List String :=
  ["  display: ", "  flex-direction: ", "  gap: ", "  padding: ",
   "  justify-content: ", "  align-items: ", "  position: ", "  left: ", "  top: "]

/-- The property-name prefixes of the post-process replacement lines. -/
def postPrefixes : List String :=
  ["  border-left: ", "  border-right: ", "  border-top: "]

/-! ### Concrete inputs used by witnesses and counterexamples -/

/-- A plain opaque red solid paint. -/
def redSolid : Paint := ⟨"SOLID", some ⟨1, 0, 0, 1⟩, none, none, none, none⟩

/-- A solid paint whose visibility flag is explicitly false. -/
def hiddenRed : Paint := ⟨"SOLID", some ⟨1, 0, 0, 1⟩, none, some false, none, none⟩

/-- A linear-gradient paint with one stop but no handle positions. -/
def gradNoHandles : Paint :=
  ⟨"GRADIENT_LINEAR", none, none, none, none, some [⟨0, ⟨1, 0, 0, 1⟩⟩]⟩

/-- A linear-gradient paint with handles but no stops. -/
def gradNoStops : Paint := ⟨"GRADIENT_LINEAR", none, none, none, some [], none⟩

/-- A minimal text style. -/
def tsBasic : TypeStyle := ⟨"Inter", 400, 16, none, none, none, none, none⟩

/-- Build a childless node with the given type, box, paints, stroke
parameters, corner radii, text style and visibility; all other fields
absent. -/
def simpleNode (ty : String) (box : Option BoundingBox)
    (fills strokes : Option (List Paint)) (sw : Option ℚ) (sa : Option String)
    (rcr : Option (List ℚ)) (sty : Option TypeStyle) (vis : Option Bool) : FigmaNode :=
  .mk "id1" "name1" ty [] box fills strokes sw sa none rcr none sty none none none
    none none none none none none none vis none

/-- A bare rectangle: emitted as markup, but its style text is empty. -/
def nodeBareRect : FigmaNode :=
  simpleNode "RECTANGLE" none none none none none none none none

/-- An explicitly invisible rectangle. -/
def nodeInvisible : FigmaNode :=
  simpleNode "RECTANGLE" none none none none none none none (some false)

/-- CENTER-aligned stroke with "top rounded only" radii [8,8,0,0]. -/
def nodeCenterTop : FigmaNode :=
  simpleNode "RECTANGLE" none none (some [redSolid]) (some 2) (some "CENTER")
    (some [8, 8, 0, 0]) none none

/-- CENTER-aligned stroke with no declared corner radius. -/
def nodeCenterPlain : FigmaNode :=
  simpleNode "RECTANGLE" none none (some [redSolid]) (some 2) (some "CENTER")
    none none none

/-- INSIDE-aligned stroke with "top rounded only" radii [8,8,0,0]. -/
def nodeInsideTop : FigmaNode :=
  simpleNode "RECTANGLE" none none (some [redSolid]) (some 2) (some "INSIDE")
    (some [8, 8, 0, 0]) none none

/-- INSIDE-aligned stroke with tiny nonzero top radii 0.004 that round
to zero at the converter's 0.01 precision. -/
def nodeInsideTiny : FigmaNode :=
  simpleNode "RECTANGLE" none none (some [redSolid]) (some 2) (some "INSIDE")
    (some [1 / 250, 1 / 250, 0, 0]) none none

/-- Node with a gradient fill that has stops but no handles. -/
def nodeGradNoHandles : FigmaNode :=
  simpleNode "RECTANGLE" none (some [gradNoHandles]) none none none none none none

/-- Node with a gradient fill that has handles but no stops. -/
def nodeGradNoStops : FigmaNode :=
  simpleNode "RECTANGLE" none (some [gradNoStops]) none none none none none none

/-- A text node with a bounding box but no style block. -/
def nodeTextNoStyle : FigmaNode :=
  simpleNode "TEXT" (some ⟨10, 20, 100, 50⟩) none none none none none none none

/-- A text node whose first fill is solid but explicitly invisible. -/
def nodeTextHiddenFill : FigmaNode :=
  simpleNode "TEXT" none (some [hiddenRed]) none none none none (some tsBasic) none

/-- A text node with a visible solid fill but no style block. -/
def nodeTextFillNoStyle : FigmaNode :=
  simpleNode "TEXT" none (some [redSolid]) none none none none none none

/-- A positioned child rectangle for the C2 witness. -/
def nodeC2child : FigmaNode :=
  simpleNode "RECTANGLE" (some ⟨30, 40, 50, 60⟩) none none none none none none none

/-- A non-auto-layout parent with a box and left/top padding. -/
def nodeC2parent : FigmaNode :=
  .mk "p1" "pname" "FRAME" [] (some ⟨10, 20, 200, 200⟩) none none none none none
    none none none none none none none (some 10) none (some 5) none none none none none

/-! ### Helper lemmas -/

/-- Every node tree has positive size. -/
theorem nodeSize_pos (n : FigmaNode) : 0 < nodeSize n := by
  cases n
  simp [nodeSize]

/-- Fuel `nodeSize` always suffices for `genHtmlFuel` and the child
runner (mutual functional induction); this is the formal content of
"the recursion is structural on the children list". -/
theorem genHtmlFuel_complete_aux :
    (∀ (node : FigmaNode) (depth : Nat) (parent : Option FigmaNode) (st : ConverterState),
      ∀ fuel, nodeSize node ≤ fuel →
        genHtmlFuel fuel node depth parent st =
          some (generateHtmlWithStyles node depth parent st)) ∧
    (∀ (cs : List FigmaNode) (depth : Nat) (parent : Option FigmaNode) (st : ConverterState),
      ∀ fuel, nodesSize cs ≤ fuel →
        runChildren (genHtmlFuel fuel) cs depth parent st =
          some (genChildren cs depth parent st)) := by
  refine generateHtmlWithStyles.mutual_induct
    (fun node depth parent st => ∀ fuel, nodeSize node ≤ fuel →
      genHtmlFuel fuel node depth parent st =
        some (generateHtmlWithStyles node depth parent st))
    (fun cs depth parent st => ∀ fuel, nodesSize cs ≤ fuel →
      runChildren (genHtmlFuel fuel) cs depth parent st =
        some (genChildren cs depth parent st))
    ?_ ?_ ?_ ?_ ?_ ?_ ?_ ?_ ?_ ?_
  -- invisible node
  case _ =>
    intro i nm ty cs bb fl sk sw sa cr rcr ch sty ef op lm isp pl pr pt pb pa ca vis cl depth parent st h fuel hfuel
    have hpos := nodeSize_pos (FigmaNode.mk i nm ty cs bb fl sk sw sa cr rcr ch sty ef op lm isp pl pr pt pb pa ca vis cl)
    cases fuel with
    | zero => omega
    | succ f =>
      simp only [genHtmlFuel, generateHtmlWithStyles, h, if_pos]
  -- DOCUMENT/CANVAS with children
  case _ =>
    intro i nm ty cs bb fl sk sw sa cr rcr ch sty ef op lm isp pl pr pt pb pa ca vis cl depth parent st h1 h2 h3 ih fuel hfuel
    cases fuel with
    | zero =>
      have hpos := nodeSize_pos (FigmaNode.mk i nm ty cs bb fl sk sw sa cr rcr ch sty ef op lm isp pl pr pt pb pa ca vis cl)
      omega
    | succ f =>
      simp only [nodeSize] at hfuel
      simp only [genHtmlFuel, generateHtmlWithStyles, FigmaNode.children, h1, h2, h3,
        if_neg, if_pos, ite_true, ite_false]
      rw [ih f (by omega)]
  -- DOCUMENT/CANVAS without children
  case _ =>
    intro i nm ty cs bb fl sk sw sa cr rcr ch sty ef op lm isp pl pr pt pb pa ca vis cl depth parent st h1 h2 h3 fuel hfuel
    cases fuel with
    | zero =>
      have hpos := nodeSize_pos (FigmaNode.mk i nm ty cs bb fl sk sw sa cr rcr ch sty ef op lm isp pl pr pt pb pa ca vis cl)
      omega
    | succ f =>
      simp only [genHtmlFuel, generateHtmlWithStyles, FigmaNode.children, h1, h2, h3,
        if_neg, if_pos, ite_true, ite_false]
  -- TEXT
  case _ =>
    intro i nm ty cs bb fl sk sw sa cr rcr ch sty ef op lm isp pl pr pt pb pa ca vis cl depth parent st h1 h2 h3 fuel hfuel
    cases fuel with
    | zero =>
      have hpos := nodeSize_pos (FigmaNode.mk i nm ty cs bb fl sk sw sa cr rcr ch sty ef op lm isp pl pr pt pb pa ca vis cl)
      omega
    | succ f =>
      simp only [FigmaNode.type] at h2 h3
      simp only [FigmaNode.visible] at h1
      simp [genHtmlFuel, generateHtmlWithStyles, FigmaNode.children, FigmaNode.type,
        FigmaNode.visible, FigmaNode.characters, h1, h2, h3]
  -- container with children
  case _ =>
    intro i nm ty cs bb fl sk sw sa cr rcr ch sty ef op lm isp pl pr pt pb pa ca vis cl depth parent st h1 h2 h3 h4 cn hlen ih fuel hfuel
    have hcn : cn = getClassName st (FigmaNode.mk i nm ty cs bb fl sk sw sa cr rcr ch sty ef op lm isp pl pr pt pb pa ca vis cl) := rfl
    rw [hcn] at ih
    cases fuel with
    | zero =>
      have hpos := nodeSize_pos (FigmaNode.mk i nm ty cs bb fl sk sw sa cr rcr ch sty ef op lm isp pl pr pt pb pa ca vis cl)
      omega
    | succ f =>
      simp only [nodeSize] at hfuel
      simp only [genHtmlFuel, generateHtmlWithStyles, FigmaNode.children, h1, h2, h3, h4, hlen,
        if_neg, if_pos, ite_true, ite_false]
      rw [ih f (by omega)]
  -- container without children
  case _ =>
    intro i nm ty cs bb fl sk sw sa cr rcr ch sty ef op lm isp pl pr pt pb pa ca vis cl depth parent st h1 h2 h3 h4 hlen fuel hfuel
    cases fuel with
    | zero =>
      have hpos := nodeSize_pos (FigmaNode.mk i nm ty cs bb fl sk sw sa cr rcr ch sty ef op lm isp pl pr pt pb pa ca vis cl)
      omega
    | succ f =>
      simp only [genHtmlFuel, generateHtmlWithStyles, FigmaNode.children, h1, h2, h3, h4, hlen,
        if_neg, if_pos, ite_true, ite_false]
  -- default with children
  case _ =>
    intro i nm ty cs bb fl sk sw sa cr rcr ch sty ef op lm isp pl pr pt pb pa ca vis cl depth parent st h1 h2 h3 h4 h5 ih fuel hfuel
    cases fuel with
    | zero =>
      have hpos := nodeSize_pos (FigmaNode.mk i nm ty cs bb fl sk sw sa cr rcr ch sty ef op lm isp pl pr pt pb pa ca vis cl)
      omega
    | succ f =>
      simp only [nodeSize] at hfuel
      simp only [genHtmlFuel, generateHtmlWithStyles, FigmaNode.children, h1, h2, h3, h4, h5,
        if_neg, if_pos, ite_true, ite_false, Bool.false_eq_true]
      rw [ih f (by omega)]
  -- default without children
  case _ =>
    intro i nm ty cs bb fl sk sw sa cr rcr ch sty ef op lm isp pl pr pt pb pa ca vis cl depth parent st h1 h2 h3 h4 h5 fuel hfuel
    cases fuel with
    | zero =>
      have hpos := nodeSize_pos (FigmaNode.mk i nm ty cs bb fl sk sw sa cr rcr ch sty ef op lm isp pl pr pt pb pa ca vis cl)
      omega
    | succ f =>
      simp only [genHtmlFuel, generateHtmlWithStyles, FigmaNode.children, h1, h2, h3, h4, h5,
        if_neg, if_pos, ite_true, ite_false, Bool.false_eq_true]
  -- nil children
  case _ =>
    intro depth parent st fuel hfuel
    simp only [runChildren, genChildren]
  -- cons children
  case _ =>
    intro c rest depth parent st r1 ih1 ih2 fuel hfuel
    have hr1 : r1 = generateHtmlWithStyles c depth parent st := rfl
    rw [hr1] at ih2
    simp only [nodesSize] at hfuel
    have hc := nodeSize_pos c
    simp only [runChildren, genChildren]
    rw [ih1 fuel (by omega)]
    dsimp only
    rw [ih2 fuel (by omega)]



end Figma

namespace Figma

/-! ### String bridging lemmas -/

/-- `listPre` decides list-prefix. -/
theorem listPre_iff (p l : List Char) : listPre p l = true ↔ ∃ t, l = p ++ t := by
  induction p generalizing l with
  | nil => simp [listPre]
  | cons a as ih =>
    cases l with
    | nil => simp [listPre]
    | cons b bs =>
      simp only [listPre, Bool.and_eq_true, beq_iff_eq, ih, List.cons_append,
        List.cons.injEq]
      constructor
      · rintro ⟨rfl, t, rfl⟩
        exact ⟨t, rfl, rfl⟩
      · rintro ⟨t, rfl, rfl⟩
        exact ⟨rfl, t, rfl⟩

/-- `listInf` decides list-infix (contiguous occurrence). -/
theorem listInf_iff (p l : List Char) : listInf p l = true ↔ ∃ s t, l = s ++ p ++ t := by
  induction l with
  | nil =>
    simp only [listInf, listPre_iff]
    constructor
    · rintro ⟨t, ht⟩
      exact ⟨[], t, ht⟩
    · rintro ⟨s, t, ht⟩
      cases s with
      | nil => exact ⟨t, ht⟩
      | cons c cs => simp at ht
  | cons b bs ih =>
    simp only [listInf, Bool.or_eq_true, listPre_iff, ih]
    constructor
    · rintro (⟨t, ht⟩ | ⟨s, t, ht⟩)
      · exact ⟨[], t, by simpa using ht⟩
      · exact ⟨b :: s, t, by simp [ht]⟩
    · rintro ⟨s, t, ht⟩
      cases s with
      | nil => exact Or.inl ⟨t, by simpa using ht⟩
      | cons c cs =>
        simp only [List.cons_append, List.cons.injEq] at ht
        exact Or.inr ⟨cs, t, ht.2⟩

/-- `listSuf` decides list-suffix. -/
theorem listSuf_iff (p l : List Char) : listSuf p l = true ↔ ∃ s, l = s ++ p := by
  simp only [listSuf, listPre_iff]
  constructor
  · rintro ⟨t, ht⟩
    refine ⟨t.reverse, ?_⟩
    have := congrArg List.reverse ht
    simpa using this
  · rintro ⟨s, rfl⟩
    exact ⟨s.reverse, by simp⟩

/-- `strIncludes` in terms of list occurrence. -/
theorem strIncludes_iff (s pat : String) :
    strIncludes s pat = true ↔ ∃ a b, s.data = a ++ pat.data ++ b := by
  simpa [strIncludes] using listInf_iff pat.data s.data

end Figma

namespace Figma

/-- Introduction rule for `midDecomp` from an explicit decomposition. -/
theorem midDecomp_intro (p A B pa pm pb : List Char) (ok : Char → Bool)
    (hp : p = pa ++ pm ++ pb) (hsa : ∃ s, A = s ++ pa) (hpb : ∃ t, B = pb ++ t)
    (hok : pm.all ok = true) (hne : pm ≠ []) : midDecomp p A B ok = true := by
  have hlen : p.length = pa.length + pm.length + pb.length := by
    subst hp; simp; omega
  unfold midDecomp
  rw [List.any_eq_true]
  refine ⟨pa.length, List.mem_range.mpr (by omega), ?_⟩
  rw [List.any_eq_true]
  refine ⟨pb.length, List.mem_range.mpr (by omega), ?_⟩
  have htake : p.take pa.length = pa := by
    subst hp
    rw [List.append_assoc, List.take_left]
  have hdrop : p.drop pa.length = pm ++ pb := by
    subst hp
    rw [List.append_assoc, List.drop_left]
  simp only [htake, hdrop]
  have hlen2 : (pm ++ pb).length - pb.length = pm.length := by simp
  rw [hlen2, List.take_left, List.drop_left]
  simp only [Bool.and_eq_true, listSuf_iff, listPre_iff, hok, Bool.not_eq_true',
    List.isEmpty_iff, and_true, true_and]
  exact ⟨⟨hsa, hpb⟩, by simpa using hne⟩

/-- `canOccurIn` holds when the pattern occurs inside `A`. -/
theorem canOccurIn_of_A (p A B : List Char) (ok : Char → Bool)
    (h : listInf p A = true) : canOccurIn p A B ok = true := by
  simp [canOccurIn, h]

/-- `canOccurIn` holds when the pattern occurs inside `B`. -/
theorem canOccurIn_of_B (p A B : List Char) (ok : Char → Bool)
    (h : listInf p B = true) : canOccurIn p A B ok = true := by
  simp [canOccurIn, h]

/-- `canOccurIn` holds when the pattern crosses the middle. -/
theorem canOccurIn_of_mid (p A B : List Char) (ok : Char → Bool)
    (h : midDecomp p A B ok = true) : canOccurIn p A B ok = true := by
  simp [canOccurIn, h]

/-- An occurrence of `p` in `A ++ M ++ B`, when `M` is nonempty with all
characters in `ok`, forces `canOccurIn p A B ok`. -/
theorem canOccurIn_of_occurs (p A M B : List Char) (ok : Char → Bool)
    (hM : M.all ok = true) (hMne : M ≠ [])
    (hocc : ∃ s t, A ++ M ++ B = s ++ p ++ t) : canOccurIn p A B ok = true := by
  obtain ⟨s, t, heq⟩ := hocc
  rw [List.append_assoc] at heq
  rw [List.append_assoc] at heq
  have heq2 : s ++ (p ++ t) = A ++ (M ++ B) := heq.symm
  rcases List.append_eq_append_iff.mp heq2 with ⟨a2, hA, hpt⟩ | ⟨c2, hs, hMB⟩
  · -- the occurrence starts within A
    rcases List.append_eq_append_iff.mp hpt with ⟨w, ha2, ht⟩ | ⟨w, hpw, hMBw⟩
    · -- p entirely inside A
      refine canOccurIn_of_A p A B ok ((listInf_iff p A).mpr ?_)
      exact ⟨s, w, by rw [hA, ha2, List.append_assoc]⟩
    · -- p = a2 ++ w, with w at the start of M ++ B
      rcases List.append_eq_append_iff.mp hMBw with ⟨v, hw, hB⟩ | ⟨v, hMv, htv⟩
      · -- w = M ++ v : p covers all of M and a prefix of B
        refine canOccurIn_of_mid p A B ok ?_
        refine midDecomp_intro p A B a2 M v ok ?_ ⟨s, hA⟩ ⟨t, hB⟩ hM hMne
        rw [hpw, hw, List.append_assoc]
      · -- M = w ++ v : p ends inside M
        by_cases hwe : w = []
        · refine canOccurIn_of_A p A B ok ((listInf_iff p A).mpr ?_)
          refine ⟨s, [], ?_⟩
          rw [hA, hpw, hwe]
          simp
        · refine canOccurIn_of_mid p A B ok ?_
          refine midDecomp_intro p A B a2 w [] ok ?_ ⟨s, hA⟩ ⟨B, by simp⟩ ?_ hwe
          · rw [hpw]; simp
          · rw [hMv] at hM
            simp only [List.all_append, Bool.and_eq_true] at hM
            exact hM.1
  · -- the occurrence starts at or after M
    rcases List.append_eq_append_iff.mp hMB with ⟨v, hc2, hB⟩ | ⟨v, hMv, hptv⟩
    · -- p entirely inside B
      refine canOccurIn_of_B p A B ok ((listInf_iff p B).mpr ?_)
      exact ⟨v, t, by rw [hB, List.append_assoc]⟩
    · -- M = c2 ++ v, v ++ B = p ++ t
      rcases List.append_eq_append_iff.mp hptv with ⟨u, hv, ht⟩ | ⟨u, hpu, hBu⟩
      · -- v = p ++ u : p entirely inside M
        by_cases hpe : p = []
        · exact canOccurIn_of_A p A B ok ((listInf_iff p A).mpr ⟨[], A, by simp [hpe]⟩)
        · refine canOccurIn_of_mid p A B ok ?_
          refine midDecomp_intro p A B [] p [] ok (by simp) ⟨A, by simp⟩ ⟨B, by simp⟩ ?_ hpe
          have hva : v.all ok = true := by
            rw [hMv] at hM
            simp only [List.all_append, Bool.and_eq_true] at hM
            exact hM.2
          rw [hv] at hva
          simp only [List.all_append, Bool.and_eq_true] at hva
          exact hva.1
      · -- p = v ++ u : p starts inside M and continues into B
        by_cases hve : v = []
        · refine canOccurIn_of_B p A B ok ((listInf_iff p B).mpr ?_)
          refine ⟨[], t, ?_⟩
          rw [hBu, hpu, hve]
          simp
        · refine canOccurIn_of_mid p A B ok ?_
          refine midDecomp_intro p A B [] v u ok (by rw [hpu]; simp) ⟨A, by simp⟩ ⟨t, hBu⟩ ?_ hve
          rw [hMv] at hM
          simp only [List.all_append, Bool.and_eq_true] at hM
          exact hM.2

/-- Pattern-absence principle for style lines of the form
`A ++ M ++ B` with a constrained middle. -/
theorem strIncludes_three_false (SA SM SB pat : String) (ok : Char → Bool)
    (hM : strAll ok SM = true) (hMne : SM.data ≠ [])
    (hno : canOccurIn pat.data SA.data SB.data ok = false) :
    strIncludes (SA ++ SM ++ SB) pat = false := by
  by_contra h
  rw [Bool.not_eq_false, strIncludes_iff] at h
  obtain ⟨a, b, hab⟩ := h
  rw [String.data_append, String.data_append] at hab
  have := canOccurIn_of_occurs pat.data SA.data SM.data SB.data ok hM hMne ⟨a, b, hab⟩
  rw [hno] at this
  exact Bool.false_ne_true this

end Figma

namespace Figma

/-! ### Character-set lemmas for printed values -/

/-- Digit characters are digits. -/
theorem digChar_isDigit (n : Nat) (h : n < 10) : (digChar n).isDigit = true := by
  interval_cases n <;> decide

/-- All characters of `natToCharsAux` are digits. -/
theorem natToCharsAux_digits (fuel n : Nat) :
    (natToCharsAux fuel n).all Char.isDigit = true := by
  induction fuel generalizing n with
  | zero => rfl
  | succ f ih =>
    unfold natToCharsAux
    by_cases h : n < 10
    · simp [h, digChar_isDigit n h]
    · simp only [h, ite_false, List.all_append, Bool.and_eq_true]
      refine ⟨ih (n / 10), ?_⟩
      simp [digChar_isDigit (n % 10) (Nat.mod_lt n (by omega))]

/-- All characters of `natToChars` are digits. -/
theorem natToChars_digits (n : Nat) : (natToChars n).all Char.isDigit = true :=
  natToCharsAux_digits (n + 1) n

/-- `natToChars` is never empty. -/
theorem natToChars_ne_nil (n : Nat) : natToChars n ≠ [] := by
  unfold natToChars natToCharsAux
  by_cases h : n < 10 <;> simp [h]

/-- Digits satisfy `numOK`. -/
theorem numOK_of_isDigit (c : Char) (h : c.isDigit = true) : numOK c = true := by
  simp [numOK, h]

/-- `strAll` distributes over append. -/
theorem strAll_append (ok : Char → Bool) (a b : String) :
    strAll ok (a ++ b) = (strAll ok a && strAll ok b) := by
  simp [strAll, String.data_append, List.all_append]

/-- A list of digits is all-`numOK`. -/
theorem all_numOK_of_all_digits (l : List Char) (h : l.all Char.isDigit = true) :
    l.all numOK = true := by
  rw [List.all_eq_true] at h ⊢
  intro c hc
  exact numOK_of_isDigit c (h c hc)

/-- All characters of `natToString` satisfy `numOK`. -/
theorem natToString_numOK (n : Nat) : strAll numOK (natToString n) = true :=
  all_numOK_of_all_digits _ (natToChars_digits n)

/-- All characters of `intToString` satisfy `numOK`. -/
theorem intToString_numOK (n : ℤ) : strAll numOK (intToString n) = true := by
  unfold intToString
  by_cases h : n < 0
  · simp only [h, ite_true, strAll_append, Bool.and_eq_true]
    exact ⟨by decide, natToString_numOK _⟩
  · simp only [h, ite_false]
    exact natToString_numOK _

/-- All characters of `fracChars` are digits when the argument is in
`[0, 1)`. -/
theorem fracChars_digits (fuel : Nat) (q : ℚ) (h0 : 0 ≤ q) (h1 : q < 1) :
    (fracChars fuel q).all Char.isDigit = true := by
  induction fuel generalizing q with
  | zero => rfl
  | succ f ih =>
    unfold fracChars
    by_cases hq : q = 0
    · simp [hq]
    · simp only [hq, ite_false, List.all_cons, Bool.and_eq_true]
      have hd0 : (0 : ℤ) ≤ ⌊q * 10⌋ := Int.floor_nonneg.mpr (by positivity)
      have hq10 : q * 10 < 10 := by linarith
      have hd9 : ⌊q * 10⌋ < 10 := by
        have h2 : q * 10 < ((10 : ℤ) : ℚ) := by push_cast; linarith
        exact Int.floor_lt.mpr h2
      constructor
      · refine digChar_isDigit _ ?_
        omega
      · refine ih (q * 10 - ⌊q * 10⌋) ?_ ?_
        · rw [Int.self_sub_floor]
          exact Int.fract_nonneg (q * 10)
        · rw [Int.self_sub_floor]
          exact Int.fract_lt_one (q * 10)

/-- All characters of `numToString` satisfy `numOK`. -/
theorem numToString_numOK (q : ℚ) : strAll numOK (numToString q) = true := by
  unfold numToString
  have hip : (0 : ℚ) ≤ |q| - (((⌊|q|⌋).toNat : ℕ) : ℚ) := by
    have h0 : (0 : ℚ) ≤ |q| := abs_nonneg q
    have : ((⌊|q|⌋).toNat : ℚ) = ((⌊|q|⌋ : ℤ) : ℚ) := by
      norm_cast
      exact Int.toNat_of_nonneg (Int.floor_nonneg.mpr h0)
    rw [this]
    have := Int.floor_le |q|
    linarith
  have hfr1 : |q| - (((⌊|q|⌋).toNat : ℕ) : ℚ) < 1 := by
    have h0 : (0 : ℚ) ≤ |q| := abs_nonneg q
    have hcast : ((⌊|q|⌋).toNat : ℚ) = ((⌊|q|⌋ : ℤ) : ℚ) := by
      norm_cast
      exact Int.toNat_of_nonneg (Int.floor_nonneg.mpr h0)
    rw [hcast]
    have := Int.lt_floor_add_one |q|
    linarith
  by_cases hz : |q| - (((⌊|q|⌋).toNat : ℕ) : ℚ) = 0
  · simp only [hz, ite_true]
    by_cases hneg : q < 0 <;>
      simp only [hneg, ite_true, ite_false, strAll_append, Bool.and_eq_true] <;>
      exact ⟨by decide, natToString_numOK _⟩
  · simp only [hz, ite_false]
    have hfrac : strAll numOK (String.mk (fracChars 40 (|q| - (((⌊|q|⌋).toNat : ℕ) : ℚ)))) = true :=
      all_numOK_of_all_digits _ (fracChars_digits 40 _ hip hfr1)
    by_cases hneg : q < 0 <;>
      simp only [hneg, ite_true, ite_false, strAll_append, Bool.and_eq_true] <;>
      exact ⟨⟨⟨by decide, natToString_numOK _⟩, by decide⟩, hfrac⟩

/-- `numOK` characters are `colorOK`. -/
theorem colorOK_of_numOK (c : Char) (h : numOK c = true) : colorOK c = true := by
  simp [colorOK, h]

/-- `colorOK` characters are `paintOK`. -/
theorem paintOK_of_colorOK (c : Char) (h : colorOK c = true) : paintOK c = true := by
  simp [paintOK, h]

/-- Monotonicity of `strAll` along a character-class implication. -/
theorem strAll_mono (ok1 ok2 : Char → Bool) (s : String)
    (him : ∀ c, ok1 c = true → ok2 c = true) (h : strAll ok1 s = true) :
    strAll ok2 s = true := by
  rw [strAll, List.all_eq_true] at h ⊢
  intro c hc
  exact him c (h c hc)

/-- All characters of `rgbaToString` satisfy `colorOK`. -/
theorem rgbaToString_colorOK (c : FigmaColor) (o : Option ℚ) :
    strAll colorOK (rgbaToString c o) = true := by
  unfold rgbaToString
  have hnum : ∀ q : ℚ, strAll colorOK (numToString q) = true := fun q =>
    strAll_mono numOK colorOK _ colorOK_of_numOK (numToString_numOK q)
  have hint : ∀ n : ℤ, strAll colorOK (intToString n) = true := fun n =>
    strAll_mono numOK colorOK _ colorOK_of_numOK (intToString_numOK n)
  by_cases ha : (match o with | some x => x | none => c.a) = 1 <;>
    simp_all [strAll_append, hint, hnum] <;> decide

/-- `rgbaToString` is never the empty string. -/
theorem rgbaToString_ne_nil (c : FigmaColor) (o : Option ℚ) :
    (rgbaToString c o).data ≠ [] := by
  unfold rgbaToString
  by_cases ha : (match o with | some x => x | none => c.a) = 1 <;>
    simp [ha, String.data_append]

/-- `numToString` is never the empty string. -/
theorem numToString_ne_nil (q : ℚ) : (numToString q).data ≠ [] := by
  unfold numToString
  have hnat := natToChars_ne_nil ((⌊|q|⌋).toNat)
  by_cases hz : |q| - (((⌊|q|⌋).toNat : ℕ) : ℚ) = 0 <;>
    by_cases hneg : q < 0 <;>
      simp_all [String.data_append, natToString, String.mk]

end Figma

namespace Figma

/-! ### List-operation lemmas -/

/-- `findFirst` returns an element satisfying the predicate. -/
theorem findFirst_some {α : Type} (p : α → Bool) (l : List α) (a : α)
    (h : findFirst p l = some a) : p a = true ∧ a ∈ l := by
  induction l with
  | nil => simp [findFirst] at h
  | cons b rest ih =>
    unfold findFirst at h
    by_cases hb : p b
    · simp only [hb, ite_true, Option.some.injEq] at h
      subst h
      exact ⟨hb, List.mem_cons_self b rest⟩
    · simp only [hb, ite_false] at h
      obtain ⟨h1, h2⟩ := ih h
      exact ⟨h1, List.mem_cons_of_mem b h2⟩

/-- `findFirst` misses nothing: if no element satisfies `p` it is `none`. -/
theorem findFirst_eq_none {α : Type} (p : α → Bool) (l : List α)
    (h : ∀ a ∈ l, p a = false) : findFirst p l = none := by
  induction l with
  | nil => rfl
  | cons b rest ih =>
    unfold findFirst
    have hb := h b (List.mem_cons_self b rest)
    simp only [hb, ite_false, Bool.false_eq_true]
    exact ih fun a ha => h a (List.mem_cons_of_mem b ha)

/-- Removal keeps every element that fails the predicate. -/
theorem mem_removeFirstBy {α : Type} (p : α → Bool) (l : List α) (a : α)
    (ha : a ∈ l) (hp : p a = false) : a ∈ removeFirstBy p l := by
  induction l with
  | nil => simp at ha
  | cons b rest ih =>
    unfold removeFirstBy
    rcases List.mem_cons.mp ha with rfl | hmem
    · simp only [hp, ite_false, Bool.false_eq_true]
      exact List.mem_cons_self a _
    · by_cases hb : p b
      · simp only [hb, ite_true]
        exact hmem
      · simp only [hb, ite_false, Bool.false_eq_true]
        exact List.mem_cons_of_mem b (ih hmem)

/-- Removal introduces no new elements. -/
theorem removeFirstBy_subset {α : Type} (p : α → Bool) (l : List α) (a : α)
    (ha : a ∈ removeFirstBy p l) : a ∈ l := by
  induction l with
  | nil => simp [removeFirstBy] at ha
  | cons b rest ih =>
    unfold removeFirstBy at ha
    by_cases hb : p b
    · simp only [hb, ite_true] at ha
      exact List.mem_cons_of_mem b ha
    · simp only [hb, ite_false, Bool.false_eq_true] at ha
      rcases List.mem_cons.mp ha with rfl | hmem
      · exact List.mem_cons_self a rest
      · exact List.mem_cons_of_mem b (ih hmem)

/-- Insertion keeps every element. -/
theorem mem_insertAt {α : Type} (n : Nat) (b : α) (l : List α) (a : α)
    (ha : a ∈ l) : a ∈ insertAt n b l := by
  induction l generalizing n with
  | nil => simp at ha
  | cons c rest ih =>
    cases n with
    | zero => exact List.mem_cons_of_mem b ha
    | succ m =>
      unfold insertAt
      rcases List.mem_cons.mp ha with rfl | hmem
      · exact List.mem_cons_self a _
      · exact List.mem_cons_of_mem c (ih m hmem)

/-- Everything in an inserted list is the new element or an original. -/
theorem insertAt_subset {α : Type} (n : Nat) (b : α) (l : List α) (a : α)
    (ha : a ∈ insertAt n b l) : a = b ∨ a ∈ l := by
  induction l generalizing n with
  | nil =>
    cases n with
    | zero => simpa [insertAt] using ha
    | succ m => simp [insertAt] at ha; exact Or.inl ha
  | cons c rest ih =>
    cases n with
    | zero =>
      rcases List.mem_cons.mp ha with rfl | hmem
      · exact Or.inl rfl
      · exact Or.inr hmem
    | succ m =>
      unfold insertAt at ha
      rcases List.mem_cons.mp ha with rfl | hmem
      · exact Or.inr (List.mem_cons_self a rest)
      · rcases ih m hmem with h | h
        · exact Or.inl h
        · exact Or.inr (List.mem_cons_of_mem c h)

/-- Replacement keeps every element different from the replaced one. -/
theorem mem_replaceFirstEq (x : String) (repl l : List String) (a : String)
    (ha : a ∈ l) (hne : a ≠ x) : a ∈ replaceFirstEq x repl l := by
  induction l with
  | nil => simp at ha
  | cons b rest ih =>
    unfold replaceFirstEq
    by_cases hb : b == x
    · simp only [hb, ite_true]
      rcases List.mem_cons.mp ha with rfl | hmem
      · exact absurd (by simpa using hb) hne
      · exact List.mem_append_right repl hmem
    · simp only [hb, ite_false, Bool.false_eq_true]
      rcases List.mem_cons.mp ha with rfl | hmem
      · exact List.mem_cons_self a _
      · exact List.mem_cons_of_mem b (ih hmem)

/-- Everything in a replaced list is a replacement line or an original. -/
theorem replaceFirstEq_subset (x : String) (repl l : List String) (a : String)
    (ha : a ∈ replaceFirstEq x repl l) : a ∈ repl ∨ a ∈ l := by
  induction l with
  | nil => simp [replaceFirstEq] at ha
  | cons b rest ih =>
    unfold replaceFirstEq at ha
    by_cases hb : b == x
    · simp only [hb, ite_true] at ha
      rcases List.mem_append.mp ha with h | h
      · exact Or.inl h
      · exact Or.inr (List.mem_cons_of_mem b h)
    · simp only [hb, ite_false, Bool.false_eq_true] at ha
      rcases List.mem_cons.mp ha with rfl | hmem
      · exact Or.inr (List.mem_cons_self a rest)
      · rcases ih hmem with h | h
        · exact Or.inl h
        · exact Or.inr (List.mem_cons_of_mem b h)

end Figma

namespace Figma

/-! ### Prefix helper lemmas -/

/-- A string starts with its own leading literal. -/
theorem strStartsWith_append_self (p rest : String) :
    strStartsWith (p ++ rest) p = true := by
  rw [strStartsWith, String.data_append]
  exact (listPre_iff p.data (p.data ++ rest.data)).mpr ⟨rest.data, rfl⟩

/-- A string built as `p ++ a ++ b` starts with `p`. -/
theorem strStartsWith_two (p a b : String) :
    strStartsWith (p ++ a ++ b) p = true := by
  have h : p ++ a ++ b = p ++ (a ++ b) := by
    apply String.ext
    simp [String.data_append]
  rw [h]
  exact strStartsWith_append_self p (a ++ b)

/-- `startsOneOf` from a member prefix. -/
theorem startsOneOf_of_mem (s p : String) (ps : List String) (hmem : p ∈ ps)
    (h : strStartsWith s p = true) : startsOneOf s ps = true := by
  unfold startsOneOf
  rw [List.any_eq_true]
  exact ⟨p, hmem, h⟩

/-- Prefix transitivity. -/
theorem strStartsWith_trans (s p q : String) (h : strStartsWith s p = true)
    (hpq : strStartsWith p q = true) : strStartsWith s q = true := by
  rw [strStartsWith, listPre_iff] at h hpq ⊢
  obtain ⟨t1, h1⟩ := h
  obtain ⟨t2, h2⟩ := hpq
  exact ⟨t2 ++ t1, by rw [h1, h2, List.append_assoc]⟩

/-! ### Survival lemmas: each list-transforming stage keeps lines -/

/-- `textAlignH` only appends. -/
theorem textAlignH_mem (ts : TypeStyle) (l : List String) (s : String)
    (hs : s ∈ l) : s ∈ textAlignH ts l := by
  unfold textAlignH
  dsimp only
  split_ifs <;> solve_by_elim [List.mem_append_left]

/-- `textAlignV` only appends. -/
theorem textAlignV_mem (ts : TypeStyle) (l : List String) (s : String)
    (hs : s ∈ l) : s ∈ textAlignV ts l := by
  unfold textAlignV
  dsimp only
  split_ifs <;> solve_by_elim [List.mem_append_left]

/-- `textAlignApply` only appends. -/
theorem textAlignApply_mem (ts : TypeStyle) (l : List String) (s : String)
    (hs : s ∈ l) : s ∈ textAlignApply ts l :=
  textAlignV_mem ts _ s (textAlignH_mem ts l s hs)

/-- `textColorApply` keeps lines not mentioning `background-color`. -/
theorem textColorApply_mem (node : FigmaNode) (l : List String) (s : String)
    (hs : s ∈ l) (hbg : strIncludes s "background-color" = false) :
    s ∈ textColorApply node l := by
  unfold textColorApply
  match node.fills with
  | none => exact hs
  | some [] => exact hs
  | some (fill :: rest) =>
    dsimp only
    split_ifs with h1
    · match fill.color with
      | some c =>
        exact mem_removeFirstBy _ _ s (List.mem_append_left _ hs) hbg
      | none => exact hs
    · exact hs

/-- `textBlockApply` keeps lines not mentioning `background-color`. -/
theorem textBlockApply_mem (node : FigmaNode) (l : List String) (s : String)
    (hs : s ∈ l) (hbg : strIncludes s "background-color" = false) :
    s ∈ textBlockApply node l := by
  unfold textBlockApply
  split_ifs with h1
  · match node.style with
    | some ts =>
      refine List.mem_append_left _ ?_
      refine textColorApply_mem node _ s ?_ hbg
      exact textAlignApply_mem ts _ s (List.mem_append_left _ hs)
    | none => exact hs
  · exact hs

/-- `layoutPositionApply` only adds lines. -/
theorem layoutPositionApply_mem (node : FigmaNode) (parent : Option FigmaNode)
    (l : List String) (s : String) (hs : s ∈ l) :
    s ∈ layoutPositionApply node parent l := by
  unfold layoutPositionApply
  match parent with
  | none => exact hs
  | some p =>
    dsimp only
    split_ifs with h1
    · exact hs
    · match node.absoluteBoundingBox, p.absoluteBoundingBox with
      | some b, some pb =>
        dsimp only
        split_ifs <;>
          solve_by_elim [mem_insertAt, List.mem_cons_of_mem]
      | some b, none => exact List.mem_cons_of_mem _ hs
      | none, some pb => exact List.mem_cons_of_mem _ hs
      | none, none => exact List.mem_cons_of_mem _ hs

/-- `layoutBlockApply` only adds lines. -/
theorem layoutBlockApply_mem (node : FigmaNode) (parent : Option FigmaNode)
    (l : List String) (s : String) (hs : s ∈ l) :
    s ∈ layoutBlockApply node parent l := by
  unfold layoutBlockApply
  split_ifs with h1
  · exact layoutPositionApply_mem node parent _ s (List.mem_append_left _ hs)
  · exact hs

/-- `postProcess` keeps every line that does not match the shorthand
border regex. -/
theorem postProcess_mem (l : List String) (s : String) (hs : s ∈ l)
    (hbl : matchBorderLine s = false) : s ∈ postProcess l := by
  unfold postProcess
  match h1 : findFirst (fun t => strIncludes t "border-radius:") l with
  | none => exact hs
  | some brl =>
    match h2 : findFirst matchBorderLine l with
    | none => exact hs
    | some bl =>
      dsimp only
      split_ifs with h3
      · match borderCapture bl.data with
        | some wc =>
          dsimp only
          refine mem_replaceFirstEq bl _ l s hs ?_
          intro heq
          have hblt := (findFirst_some matchBorderLine l bl h2).1
          rw [← heq] at hblt
          rw [hbl] at hblt
          exact Bool.false_ne_true hblt
        | none => exact hs
      · exact hs

/-- Lines already present in the five push-only blocks survive to the
final style list provided they do not mention `background-color` and do
not match the shorthand border regex. -/
theorem generateNodeStylesList_mem (node : FigmaNode) (parent : Option FigmaNode)
    (s : String)
    (hs : s ∈ posSizeBlock node parent ++ fillBlock node ++
      strokeBlock node (radiusInfo node) ++ radiusPushBlock (radiusInfo node) ++
      opacityBlock node)
    (hbg : strIncludes s "background-color" = false)
    (hbl : matchBorderLine s = false) :
    s ∈ generateNodeStylesList node parent := by
  unfold generateNodeStylesList
  dsimp only
  refine postProcess_mem _ s ?_ hbl
  refine List.mem_append_left _ ?_
  refine List.mem_append_left _ ?_
  refine layoutBlockApply_mem node parent _ s ?_
  exact textBlockApply_mem node _ s hs hbg

end Figma

namespace Figma

/-! ### Shape lemmas: every added line carries a known property prefix -/

/-- Every line `textAlignH` adds starts with a text-block prefix. -/
theorem textAlignH_subset (ts : TypeStyle) (l : List String) (s : String)
    (ha : s ∈ textAlignH ts l) : s ∈ l ∨ startsOneOf s textPrefixes = true := by
  unfold textAlignH at ha
  dsimp only at ha
  split_ifs at ha
  · simp only [List.mem_append, List.mem_singleton] at ha
    rcases ha with ((ha | rfl) | rfl) | rfl
    · exact Or.inl ha
    · refine Or.inr (startsOneOf_of_mem _ "  text-align: " _ (by decide) ?_)
      exact strStartsWith_two _ _ _
    · exact Or.inr (by decide)
    · exact Or.inr (by decide)
  · simp only [List.mem_append, List.mem_singleton] at ha
    rcases ha with (ha | rfl) | rfl
    · exact Or.inl ha
    · refine Or.inr (startsOneOf_of_mem _ "  text-align: " _ (by decide) ?_)
      exact strStartsWith_two _ _ _
    · exact Or.inr (by decide)
  · simp only [List.mem_append, List.mem_singleton] at ha
    rcases ha with ha | rfl
    · exact Or.inl ha
    · refine Or.inr (startsOneOf_of_mem _ "  text-align: " _ (by decide) ?_)
      exact strStartsWith_two _ _ _
  · exact Or.inl ha

/-- Every line `textAlignV` adds starts with a text-block prefix. -/
theorem textAlignV_subset (ts : TypeStyle) (l : List String) (s : String)
    (ha : s ∈ textAlignV ts l) : s ∈ l ∨ startsOneOf s textPrefixes = true := by
  unfold textAlignV at ha
  dsimp only at ha
  split_ifs at ha <;>
    first
      | exact Or.inl ha
      | (simp only [List.mem_append, List.mem_singleton] at ha
         first
           | (rcases ha with (ha | rfl) | rfl
              · exact Or.inl ha
              · exact Or.inr (by decide)
              · exact Or.inr (by decide))
           | (rcases ha with ha | rfl
              · exact Or.inl ha
              · exact Or.inr (by decide)))

/-- Composed shape lemma for both alignment passes. -/
theorem textAlignApply_subset (ts : TypeStyle) (l : List String) (s : String)
    (ha : s ∈ textAlignApply ts l) : s ∈ l ∨ startsOneOf s textPrefixes = true := by
  rcases textAlignV_subset ts _ s ha with h | h
  · exact textAlignH_subset ts l s h
  · exact Or.inr h

/-- Every line `textColorApply` adds starts with a text-block prefix. -/
theorem textColorApply_subset (node : FigmaNode) (l : List String) (s : String)
    (ha : s ∈ textColorApply node l) : s ∈ l ∨ startsOneOf s textPrefixes = true := by
  unfold textColorApply at ha
  match hf : node.fills with
  | none => rw [hf] at ha; exact Or.inl ha
  | some [] => rw [hf] at ha; exact Or.inl ha
  | some (fill :: rest) =>
    rw [hf] at ha
    dsimp only at ha
    split_ifs at ha
    · match hc : fill.color with
      | some c =>
        rw [hc] at ha
        dsimp only at ha
        have ha2 := removeFirstBy_subset _ _ s ha
        simp only [List.mem_append, List.mem_singleton] at ha2
        rcases ha2 with ha2 | rfl
        · exact Or.inl ha2
        · refine Or.inr (startsOneOf_of_mem _ "  color: " _ (by decide) ?_)
          exact strStartsWith_two _ _ _
      | none => rw [hc] at ha; exact Or.inl ha
    · exact Or.inl ha

/-- Every font-metric line starts with a text-block prefix. -/
theorem textFontLines_starts (ts : TypeStyle) (s : String)
    (ha : s ∈ textFontLines ts) : startsOneOf s textPrefixes = true := by
  unfold textFontLines at ha
  rcases List.mem_append.mp ha with ha2 | ha2
  · rcases List.mem_append.mp ha2 with ha3 | ha3
    · simp only [List.mem_cons, List.mem_singleton, List.not_mem_nil, or_false] at ha3
      rcases ha3 with rfl | rfl | rfl
      · refine startsOneOf_of_mem _ "  font-family: " _ (by decide) ?_
        exact strStartsWith_trans _ "  font-family: \"" _ (strStartsWith_two _ _ _) (by decide)
      · refine startsOneOf_of_mem _ "  font-size: " _ (by decide) ?_
        exact strStartsWith_two _ _ _
      · refine startsOneOf_of_mem _ "  font-weight: " _ (by decide) ?_
        exact strStartsWith_two _ _ _
    · split_ifs at ha3 <;>
        first
          | (simp only [List.mem_singleton] at ha3
             subst ha3
             refine startsOneOf_of_mem _ "  letter-spacing: " _ (by decide) ?_
             exact strStartsWith_two _ _ _)
          | simp at ha3
  · split_ifs at ha2 <;>
      first
        | (simp only [List.mem_singleton] at ha2
           subst ha2
           refine startsOneOf_of_mem _ "  line-height: " _ (by decide) ?_
           exact strStartsWith_two _ _ _)
        | simp at ha2

end Figma

namespace Figma

/-- Every line `textBlockApply` adds starts with a text-block prefix. -/
theorem textBlockApply_subset (node : FigmaNode) (l : List String) (s : String)
    (ha : s ∈ textBlockApply node l) : s ∈ l ∨ startsOneOf s textPrefixes = true := by
  unfold textBlockApply at ha
  split_ifs at ha
  · match hsty : node.style with
    | some ts =>
      rw [hsty] at ha
      dsimp only at ha
      simp only [List.mem_append, List.mem_cons, List.mem_singleton,
        List.not_mem_nil, or_false] at ha
      rcases ha with ha | rfl | rfl
      · rcases textColorApply_subset node _ s ha with h | h
        · rcases textAlignApply_subset ts _ s h with h2 | h2
          · simp only [List.mem_append] at h2
            rcases h2 with h2 | h2
            · exact Or.inl h2
            · exact Or.inr (textFontLines_starts ts s h2)
          · exact Or.inr h2
        · exact Or.inr h
      · exact Or.inr (by decide)
      · exact Or.inr (by decide)
    | none => rw [hsty] at ha; exact Or.inl ha
  · exact Or.inl ha

/-- Every line `layoutFlexLines` contains starts with a layout prefix. -/
theorem layoutFlexLines_starts (node : FigmaNode) (s : String)
    (ha : s ∈ layoutFlexLines node) : startsOneOf s layoutPrefixes = true := by
  unfold layoutFlexLines at ha
  rcases List.mem_append.mp ha with ha | ha
  · rcases List.mem_append.mp ha with ha | ha
    · rcases List.mem_append.mp ha with ha | ha
      · rcases List.mem_append.mp ha with ha | ha
        · rcases List.mem_append.mp ha with ha | ha
          · simp only [List.mem_singleton] at ha
            subst ha
            exact (by decide)
          · split_ifs at ha <;>
              first
                | (simp only [List.mem_singleton] at ha
                   subst ha
                   exact (by decide))
                | simp at ha
        · split_ifs at ha <;>
            first
              | (simp only [List.mem_singleton] at ha
                 subst ha
                 refine startsOneOf_of_mem _ "  gap: " _ (by decide) ?_
                 exact strStartsWith_two _ _ _)
              | simp at ha
      · split_ifs at ha <;>
          first
            | (simp only [List.mem_singleton] at ha
               subst ha
               refine startsOneOf_of_mem _ "  padding: " _ (by decide) ?_
               exact strStartsWith_two _ _ _)
            | simp at ha
    · split_ifs at ha <;>
        first
          | (simp only [List.mem_singleton] at ha
             subst ha
             refine startsOneOf_of_mem _ "  justify-content: " _ (by decide) ?_
             exact strStartsWith_two _ _ _)
          | simp at ha
  · split_ifs at ha <;>
      first
        | (simp only [List.mem_singleton] at ha
           subst ha
           refine startsOneOf_of_mem _ "  align-items: " _ (by decide) ?_
           exact strStartsWith_two _ _ _)
        | simp at ha

/-- Every line `layoutPositionApply` adds starts with a layout prefix. -/
theorem layoutPositionApply_subset (node : FigmaNode) (parent : Option FigmaNode)
    (l : List String) (s : String) (ha : s ∈ layoutPositionApply node parent l) :
    s ∈ l ∨ startsOneOf s layoutPrefixes = true := by
  unfold layoutPositionApply at ha
  match parent with
  | none => exact Or.inl ha
  | some p =>
    dsimp only at ha
    split_ifs at ha with h1
    · exact Or.inl ha
    · rcases hb : node.absoluteBoundingBox with _ | b <;>
        rcases hpb : p.absoluteBoundingBox with _ | pb <;>
        rw [hb, hpb] at ha <;>
        dsimp only at ha
      case _ =>
        rcases List.mem_cons.mp ha with rfl | ha
        · exact Or.inr (by decide)
        · exact Or.inl ha
      case _ =>
        rcases List.mem_cons.mp ha with rfl | ha
        · exact Or.inr (by decide)
        · exact Or.inl ha
      case _ =>
        rcases List.mem_cons.mp ha with rfl | ha
        · exact Or.inr (by decide)
        · exact Or.inl ha
      case _ =>
        split_ifs at ha with hx hy hy
        · rcases insertAt_subset _ _ _ _ ha with rfl | ha
          · exact Or.inr (startsOneOf_of_mem _ "  top: " _ (by decide)
              (strStartsWith_two _ _ _))
          · rcases insertAt_subset _ _ _ _ ha with rfl | ha
            · exact Or.inr (startsOneOf_of_mem _ "  left: " _ (by decide)
                (strStartsWith_two _ _ _))
            · rcases List.mem_cons.mp ha with rfl | ha
              · exact Or.inr (by decide)
              · exact Or.inl ha
        · rcases insertAt_subset _ _ _ _ ha with rfl | ha
          · exact Or.inr (startsOneOf_of_mem _ "  top: " _ (by decide)
              (strStartsWith_two _ _ _))
          · rcases List.mem_cons.mp ha with rfl | ha
            · exact Or.inr (by decide)
            · exact Or.inl ha
        · rcases insertAt_subset _ _ _ _ ha with rfl | ha
          · exact Or.inr (startsOneOf_of_mem _ "  left: " _ (by decide)
              (strStartsWith_two _ _ _))
          · rcases List.mem_cons.mp ha with rfl | ha
            · exact Or.inr (by decide)
            · exact Or.inl ha
        · rcases List.mem_cons.mp ha with rfl | ha
          · exact Or.inr (by decide)
          · exact Or.inl ha

/-- Every line `layoutBlockApply` adds starts with a layout prefix. -/
theorem layoutBlockApply_subset (node : FigmaNode) (parent : Option FigmaNode)
    (l : List String) (s : String) (ha : s ∈ layoutBlockApply node parent l) :
    s ∈ l ∨ startsOneOf s layoutPrefixes = true := by
  unfold layoutBlockApply at ha
  split_ifs at ha
  · rcases layoutPositionApply_subset node parent _ s ha with h | h
    · rcases List.mem_append.mp h with h2 | h2
      · exact Or.inl h2
      · exact Or.inr (layoutFlexLines_starts node s h2)
    · exact Or.inr h
  · exact Or.inl ha

/-- Every line `postProcess` adds starts with a replacement prefix. -/
theorem postProcess_subset (l : List String) (s : String)
    (ha : s ∈ postProcess l) : s ∈ l ∨ startsOneOf s postPrefixes = true := by
  unfold postProcess at ha
  match h1 : findFirst (fun t => strIncludes t "border-radius:") l with
  | none => rw [h1] at ha; exact Or.inl ha
  | some brl =>
    rw [h1] at ha
    match h2 : findFirst matchBorderLine l with
    | none => rw [h2] at ha; exact Or.inl ha
    | some bl =>
      rw [h2] at ha
      dsimp only at ha
      split_ifs at ha
      · match h3 : borderCapture bl.data with
        | some wc =>
          rw [h3] at ha
          dsimp only at ha
          rcases replaceFirstEq_subset _ _ _ s ha with h | h
          · simp only [List.mem_cons, List.mem_singleton, List.not_mem_nil,
              or_false] at h
            rcases h with rfl | rfl | rfl
            · exact Or.inr (startsOneOf_of_mem _ "  border-left: " _ (by decide)
                (strStartsWith_two _ _ _))
            · exact Or.inr (startsOneOf_of_mem _ "  border-right: " _ (by decide)
                (strStartsWith_two _ _ _))
            · exact Or.inr (startsOneOf_of_mem _ "  border-top: " _ (by decide)
                (strStartsWith_two _ _ _))
          · exact Or.inl h
        | none => rw [h3] at ha; exact Or.inl ha
      · exact Or.inl ha

end Figma

namespace Figma

/-- Origin analysis: every line of the final style list comes from one
of the five push-only blocks or carries a prefix of the text, layout or
post-process lines. -/
theorem mem_generateNodeStylesList (node : FigmaNode) (parent : Option FigmaNode)
    (s : String) (ha : s ∈ generateNodeStylesList node parent) :
    s ∈ posSizeBlock node parent ∨ s ∈ fillBlock node ∨
    s ∈ strokeBlock node (radiusInfo node) ∨ s ∈ radiusPushBlock (radiusInfo node) ∨
    s ∈ opacityBlock node ∨ startsOneOf s textPrefixes = true ∨
    startsOneOf s layoutPrefixes = true ∨ s ∈ effectsBlock node ∨
    s ∈ clipBlock node ∨ startsOneOf s postPrefixes = true := by
  unfold generateNodeStylesList at ha
  dsimp only at ha
  rcases postProcess_subset _ s ha with h | h
  · rcases List.mem_append.mp h with h2 | h2
    · rcases List.mem_append.mp h2 with h3 | h3
      · rcases layoutBlockApply_subset node parent _ s h3 with h4 | h4
        · rcases textBlockApply_subset node _ s h4 with h5 | h5
          · rcases List.mem_append.mp h5 with h6 | h6
            · rcases List.mem_append.mp h6 with h7 | h7
              · rcases List.mem_append.mp h7 with h8 | h8
                · rcases List.mem_append.mp h8 with h9 | h9
                  · exact Or.inl h9
                  · exact Or.inr (Or.inl h9)
                · exact Or.inr (Or.inr (Or.inl h8))
              · exact Or.inr (Or.inr (Or.inr (Or.inl h7)))
            · exact Or.inr (Or.inr (Or.inr (Or.inr (Or.inl h6))))
          · exact Or.inr (Or.inr (Or.inr (Or.inr (Or.inr (Or.inl h5)))))
        · exact Or.inr (Or.inr (Or.inr (Or.inr (Or.inr (Or.inr (Or.inl h4))))))
      · exact Or.inr (Or.inr (Or.inr (Or.inr (Or.inr (Or.inr (Or.inr (Or.inl h3)))))))
    · exact Or.inr (Or.inr (Or.inr (Or.inr (Or.inr (Or.inr (Or.inr (Or.inr (Or.inl h2))))))))
  · exact Or.inr (Or.inr (Or.inr (Or.inr (Or.inr (Or.inr (Or.inr (Or.inr (Or.inr h))))))))

/-- `postProcess` is the identity when no line containing
`border-radius:` matches the "top rounded only" search pattern. -/
theorem postProcess_eq_self (l : List String)
    (h : ∀ s ∈ l, strIncludes s "border-radius:" = true → searchTop s = false) :
    postProcess l = l := by
  unfold postProcess
  match h1 : findFirst (fun t => strIncludes t "border-radius:") l with
  | none => rfl
  | some brl =>
    match h2 : findFirst matchBorderLine l with
    | none => rfl
    | some bl =>
      have hb := findFirst_some _ l brl h1
      have hst := h brl hb.2 hb.1
      dsimp only
      rw [hst]
      simp

end Figma

namespace Figma

/-- String append is associative. -/
theorem strAppend_assoc (a b c : String) : a ++ b ++ c = a ++ (b ++ c) := by
  apply String.ext
  simp [String.data_append]

/-- A `left:` line never matches the shorthand border regex. -/
theorem matchBorderLine_left (v : String) : matchBorderLine ("  left: " ++ v) = false := rfl

/-- A `top:` line never matches the shorthand border regex. -/
theorem matchBorderLine_top (v : String) : matchBorderLine ("  top: " ++ v) = false := rfl

/-- A `left:` line never contains `background-color`. -/
theorem left_line_no_bg (q : ℚ) :
    strIncludes ("  left: " ++ numToString q ++ "px;") "background-color" = false := by
  refine strIncludes_three_false _ _ _ _ numOK (numToString_numOK q) (numToString_ne_nil q) ?_
  decide

/-- A `top:` line never contains `background-color`. -/
theorem top_line_no_bg (q : ℚ) :
    strIncludes ("  top: " ++ numToString q ++ "px;") "background-color" = false := by
  refine strIncludes_three_false _ _ _ _ numOK (numToString_numOK q) (numToString_ne_nil q) ?_
  decide

/-- Characterization of the position/size block for a positioned node
under a boxed, non-auto-layout parent (lines 194-239 of the source). -/
theorem posSizeBlock_eq_abs (node p : FigmaNode) (b pb : BoundingBox)
    (hb : node.absoluteBoundingBox = some b)
    (hpb : p.absoluteBoundingBox = some pb)
    (hal : truthyStr p.layoutMode = false) :
    posSizeBlock node (some p) =
      ["  position: absolute;",
       "  left: " ++ numToString (round2 (if truthyQ p.paddingLeft then
         b.x - pb.x - p.paddingLeft.getD 0 else b.x - pb.x)) ++ "px;",
       "  top: " ++ numToString (round2 (if truthyQ p.paddingTop then
         b.y - pb.y - p.paddingTop.getD 0 else b.y - pb.y)) ++ "px;",
       "  width: " ++ numToString (round2 b.width) ++ "px;"] ++
      (if node.type ≠ "TEXT" then
        ["  height: " ++ numToString (round2 b.height) ++ "px;"]
      else
        ["  min-height: " ++ numToString (round2 b.height) ++ "px;"]) := by
  unfold posSizeBlock
  rw [hb]
  dsimp only
  rw [hpb]
  dsimp only
  rw [hal]
  simp

end Figma

namespace Figma

/-- C2: for every node with a bounding box whose parent is present, has
a bounding box and does not use auto-layout, the emitted style is
absolute positioning, with `left`/`top` equal to the node's origin minus
the parent's origin, further reduced by the parent's left/top padding
when the parent declares any, each value rounded to the nearest 0.01
pixel. -/
theorem figma_c2 (node p : FigmaNode) (b pb : BoundingBox)
    (hb : node.absoluteBoundingBox = some b)
    (hpb : p.absoluteBoundingBox = some pb)
    (hal : truthyStr p.layoutMode = false) :
    "  position: absolute;" ∈ generateNodeStylesList node (some p) ∧
    ("  left: " ++ numToString (round2 (if truthyQ p.paddingLeft then
        b.x - pb.x - p.paddingLeft.getD 0 else b.x - pb.x)) ++ "px;") ∈
      generateNodeStylesList node (some p) ∧
    ("  top: " ++ numToString (round2 (if truthyQ p.paddingTop then
        b.y - pb.y - p.paddingTop.getD 0 else b.y - pb.y)) ++ "px;") ∈
      generateNodeStylesList node (some p) := by
  have heq := posSizeBlock_eq_abs node p b pb hb hpb hal
  refine ⟨?_, ?_, ?_⟩
  · refine generateNodeStylesList_mem node (some p) _ ?_ (by decide) (by decide)
    refine List.mem_append_left _ (List.mem_append_left _ (List.mem_append_left _
      (List.mem_append_left _ ?_)))
    rw [heq]
    simp
  · refine generateNodeStylesList_mem node (some p) _ ?_ (left_line_no_bg _) ?_
    · refine List.mem_append_left _ (List.mem_append_left _ (List.mem_append_left _
        (List.mem_append_left _ ?_)))
      rw [heq]
      simp
    · rw [strAppend_assoc]
      exact matchBorderLine_left _
  · refine generateNodeStylesList_mem node (some p) _ ?_ (top_line_no_bg _) ?_
    · refine List.mem_append_left _ (List.mem_append_left _ (List.mem_append_left _
        (List.mem_append_left _ ?_)))
      rw [heq]
      simp
    · rw [strAppend_assoc]
      exact matchBorderLine_top _

/-- Witness for C2 at a concrete child/parent pair: child box (30,40),
parent box (10,20) with paddings 10 and 5, so left = 10 and top = 15. -/
theorem figma_c2_witness :
    "  position: absolute;" ∈ generateNodeStylesList nodeC2child (some nodeC2parent) ∧
    ("  left: " ++ numToString (round2 (if truthyQ nodeC2parent.paddingLeft then
        (30 : ℚ) - 10 - nodeC2parent.paddingLeft.getD 0 else 30 - 10)) ++ "px;") ∈
      generateNodeStylesList nodeC2child (some nodeC2parent) ∧
    ("  top: " ++ numToString (round2 (if truthyQ nodeC2parent.paddingTop then
        (40 : ℚ) - 20 - nodeC2parent.paddingTop.getD 0 else 40 - 20)) ++ "px;") ∈
      generateNodeStylesList nodeC2child (some nodeC2parent) :=
  figma_c2 nodeC2child nodeC2parent ⟨30, 40, 50, 60⟩ ⟨10, 20, 200, 200⟩ rfl rfl rfl

end Figma

namespace Figma

/-- C7: a node whose visibility flag is explicitly false produces no
markup, pushes no style entries (hence nothing reaches the stylesheet),
and leaves the converter state untouched, so its entire subtree
contributes nothing to either output. -/
theorem figma_c7 (node : FigmaNode) (depth : Nat) (parent : Option FigmaNode)
    (st : ConverterState) (h : node.visible = some false) :
    generateHtmlWithStyles node depth parent st = ("", [], st) := by
  obtain ⟨i, nm, ty, cs, bb, fl, sk, sw, sa, cr, rcr, ch, sty, ef, op, lm, isp,
    pl, pr, pt, pb, pa, ca, vis, cl⟩ := node
  simp only [FigmaNode.visible] at h
  simp [generateHtmlWithStyles, FigmaNode.visible, h]

/-- Witness for C7 at a concrete invisible rectangle. -/
theorem figma_c7_witness :
    generateHtmlWithStyles nodeInvisible 3 none ⟨[], 0⟩ = ("", [], ⟨[], 0⟩) :=
  figma_c7 nodeInvisible 3 none ⟨[], 0⟩ rfl

/-- C9: `convertWithStyles` terminates on every finite tree: the
fuel-bounded evaluator already succeeds with fuel `nodeSize node` (the
recursion is structural on the children list), returning exactly the
value of the total function. -/
theorem figma_c9 (node : FigmaNode) (st : ConverterState) (fuel : Nat)
    (h : nodeSize node ≤ fuel) :
    convertFuel fuel st node = some (convertWithStyles st node) := by
  unfold convertFuel convertWithStyles
  dsimp only
  rw [genHtmlFuel_complete_aux.1 node 0 none ⟨[], 0⟩ fuel h]

/-- Witness for C9 at a concrete one-node tree with fuel 1. -/
theorem figma_c9_witness :
    nodeSize nodeBareRect ≤ 1 ∧
    convertFuel 1 ⟨[], 0⟩ nodeBareRect = some (convertWithStyles ⟨[], 0⟩ nodeBareRect) :=
  ⟨by decide, figma_c9 nodeBareRect ⟨[], 0⟩ 1 (by decide)⟩

/-- C5: color conversion rounds each channel to the nearest 8-bit
integer (within [0,255] for components in [0,1]); the effective alpha is
the fill-level opacity when present, else the color's own alpha; alpha
exactly 1 yields the opaque `rgb(r, g, b)` form, which never starts with
`rgba(`; any other alpha yields `rgba(r, g, b, a)`. -/
theorem figma_c5 (c : FigmaColor) (o : Option ℚ)
    (hr0 : 0 ≤ c.r) (hr1 : c.r ≤ 1) (hg0 : 0 ≤ c.g) (hg1 : c.g ≤ 1)
    (hb0 : 0 ≤ c.b) (hb1 : c.b ≤ 1) :
    (0 ≤ jsRound (c.r * 255) ∧ jsRound (c.r * 255) ≤ 255) ∧
    (0 ≤ jsRound (c.g * 255) ∧ jsRound (c.g * 255) ≤ 255) ∧
    (0 ≤ jsRound (c.b * 255) ∧ jsRound (c.b * 255) ≤ 255) ∧
    rgbaToString c o =
      (if effAlpha c o = 1 then
        "rgb(" ++ intToString (jsRound (c.r * 255)) ++ ", " ++
          intToString (jsRound (c.g * 255)) ++ ", " ++
          intToString (jsRound (c.b * 255)) ++ ")"
      else
        "rgba(" ++ intToString (jsRound (c.r * 255)) ++ ", " ++
          intToString (jsRound (c.g * 255)) ++ ", " ++
          intToString (jsRound (c.b * 255)) ++ ", " ++
          numToString (effAlpha c o) ++ ")") ∧
    (effAlpha c o = 1 →
      strStartsWith (rgbaToString c o) "rgba(" = false) := by
  have bound : ∀ x : ℚ, 0 ≤ x → x ≤ 1 → 0 ≤ jsRound (x * 255) ∧ jsRound (x * 255) ≤ 255 := by
    intro x h0 h1
    unfold jsRound
    constructor
    · refine Int.floor_nonneg.mpr ?_
      nlinarith
    · have hlt : x * 255 + 1 / 2 < ((256 : ℤ) : ℚ) := by push_cast; nlinarith
      have h2 := Int.floor_lt.mpr hlt
      omega
  refine ⟨bound c.r hr0 hr1, bound c.g hg0 hg1, bound c.b hb0 hb1, rfl, ?_⟩
  intro h1
  unfold effAlpha at h1
  unfold rgbaToString
  match o with
  | some x =>
    dsimp only at h1 ⊢
    rw [if_pos h1]
    rfl
  | none =>
    dsimp only at h1 ⊢
    rw [if_pos h1]
    rfl

/-- Witness for C5 at the concrete color (1, 1/2, 0, alpha 1). -/
theorem figma_c5_witness :
    (0 ≤ jsRound ((1 : ℚ) * 255) ∧ jsRound ((1 : ℚ) * 255) ≤ 255) ∧
    (0 ≤ jsRound ((1 / 2 : ℚ) * 255) ∧ jsRound ((1 / 2 : ℚ) * 255) ≤ 255) ∧
    (0 ≤ jsRound ((0 : ℚ) * 255) ∧ jsRound ((0 : ℚ) * 255) ≤ 255) ∧
    rgbaToString ⟨1, 1 / 2, 0, 1⟩ none =
      (if effAlpha ⟨1, 1 / 2, 0, 1⟩ none = 1 then
        "rgb(" ++ intToString (jsRound ((1 : ℚ) * 255)) ++ ", " ++
          intToString (jsRound ((1 / 2 : ℚ) * 255)) ++ ", " ++
          intToString (jsRound ((0 : ℚ) * 255)) ++ ")"
      else
        "rgba(" ++ intToString (jsRound ((1 : ℚ) * 255)) ++ ", " ++
          intToString (jsRound ((1 / 2 : ℚ) * 255)) ++ ", " ++
          intToString (jsRound ((0 : ℚ) * 255)) ++ ", " ++
          numToString (effAlpha ⟨1, 1 / 2, 0, 1⟩ none) ++ ")") ∧
    (effAlpha ⟨1, 1 / 2, 0, 1⟩ none = 1 →
      strStartsWith (rgbaToString ⟨1, 1 / 2, 0, 1⟩ none) "rgba(" = false) :=
  figma_c5 ⟨1, 1 / 2, 0, 1⟩ none (by norm_num) (by norm_num) (by norm_num)
    (by norm_num) (by norm_num) (by norm_num)

/-- C1 counterexample: a bare rectangle is emitted as one markup
element, but its generated style text is empty, so the stylesheet
contains zero rules: the number of style rules in the CSS output does
not equal the number of markup elements emitted. -/
theorem figma_c1_counterexample :
    (cssBlocks (generateHtmlWithStyles nodeBareRect 0 none ⟨[], 0⟩).2.1).length ≠
      emittedElemCount nodeBareRect := by
  decide

/-- C1 amended: the traversal pushes exactly one style entry per emitted
markup element (so entries and elements agree), and the stylesheet
contains exactly one rule per entry whose generated style text is
nonempty (the `if (styles)` test at line 179 skips empty ones). -/
theorem figma_c1_amended :
    (∀ (node : FigmaNode) (depth : Nat) (parent : Option FigmaNode) (st : ConverterState),
      ((generateHtmlWithStyles node depth parent st).2.1).length = emittedElemCount node) ∧
    (∀ entries : List StyleEntry, (cssBlocks entries).length =
      (entries.filter fun e => generateNodeStyles e.node e.parent ≠ "").length) := by
  constructor
  · have main :=
      generateHtmlWithStyles.mutual_induct
        (fun node depth parent st =>
          ((generateHtmlWithStyles node depth parent st).2.1).length = emittedElemCount node)
        (fun cs depth parent st =>
          ((genChildren cs depth parent st).2.1).length = emittedElemCounts cs)
    refine fun node depth parent st => (main ?_ ?_ ?_ ?_ ?_ ?_ ?_ ?_ ?_ ?_).1 node depth parent st
    · intro i nm ty cs bb fl sk sw sa cr rcr ch sty ef op lm isp pl pr pt pb pa ca vis cl depth parent st h
      simp [generateHtmlWithStyles, emittedElemCount, h]
    · intro i nm ty cs bb fl sk sw sa cr rcr ch sty ef op lm isp pl pr pt pb pa ca vis cl depth parent st h1 h2 h3 ih
      simp only [FigmaNode.visible] at h1
      simp only [FigmaNode.type] at h2
      simp only [generateHtmlWithStyles, emittedElemCount, FigmaNode.visible,
        FigmaNode.type, FigmaNode.children, h1, h2, h3, if_neg, if_pos, ite_true,
        ite_false] at ih ⊢
      exact ih
    · intro i nm ty cs bb fl sk sw sa cr rcr ch sty ef op lm isp pl pr pt pb pa ca vis cl depth parent st h1 h2 h3
      simp only [FigmaNode.visible] at h1
      simp only [FigmaNode.type] at h2
      try simp only [FigmaNode.children] at h3
      have hcs : cs = [] := by
        cases cs with
        | nil => rfl
        | cons a l => simp at h3
      subst hcs
      simp [generateHtmlWithStyles, emittedElemCount, FigmaNode.visible,
        FigmaNode.type, FigmaNode.children, h1, h2, emittedElemCounts]
    · intro i nm ty cs bb fl sk sw sa cr rcr ch sty ef op lm isp pl pr pt pb pa ca vis cl depth parent st h1 h2 h3
      simp only [FigmaNode.visible] at h1
      simp only [FigmaNode.type] at h2 h3
      simp [generateHtmlWithStyles, emittedElemCount, FigmaNode.visible,
        FigmaNode.type, FigmaNode.children, h1, h2, h3]
    · intro i nm ty cs bb fl sk sw sa cr rcr ch sty ef op lm isp pl pr pt pb pa ca vis cl depth parent st h1 h2 h3 h4 cn hlen ih
      have hcn : cn = getClassName st (FigmaNode.mk i nm ty cs bb fl sk sw sa cr rcr ch sty ef op lm isp pl pr pt pb pa ca vis cl) := rfl
      rw [hcn] at ih
      simp only [FigmaNode.visible] at h1
      simp only [FigmaNode.type] at h2 h3 h4
      simp only [generateHtmlWithStyles, emittedElemCount, FigmaNode.visible,
        FigmaNode.type, FigmaNode.children, h1, h2, h3, h4, hlen, if_neg, if_pos,
        ite_true, ite_false, List.length_cons] at ih ⊢
      omega
    · intro i nm ty cs bb fl sk sw sa cr rcr ch sty ef op lm isp pl pr pt pb pa ca vis cl depth parent st h1 h2 h3 h4 hlen
      simp only [FigmaNode.visible] at h1
      simp only [FigmaNode.type] at h2 h3 h4
      have hcs : cs = [] := by
        cases cs with
        | nil => rfl
        | cons a l => simp at hlen
      subst hcs
      simp [generateHtmlWithStyles, emittedElemCount, FigmaNode.visible,
        FigmaNode.type, FigmaNode.children, h1, h2, h3, h4, emittedElemCounts]
    · intro i nm ty cs bb fl sk sw sa cr rcr ch sty ef op lm isp pl pr pt pb pa ca vis cl depth parent st h1 h2 h3 h4 h5 ih
      simp only [FigmaNode.visible] at h1
      simp only [FigmaNode.type] at h2 h3 h4
      simp only [generateHtmlWithStyles, emittedElemCount, FigmaNode.visible,
        FigmaNode.type, FigmaNode.children, h1, h2, h3, h4, h5, if_neg, if_pos,
        ite_true, ite_false, Bool.false_eq_true] at ih ⊢
      exact ih
    · intro i nm ty cs bb fl sk sw sa cr rcr ch sty ef op lm isp pl pr pt pb pa ca vis cl depth parent st h1 h2 h3 h4 h5
      simp only [FigmaNode.visible] at h1
      simp only [FigmaNode.type] at h2 h3 h4
      try simp only [FigmaNode.children] at h5
      have hcs : cs = [] := by
        cases cs with
        | nil => rfl
        | cons a l => simp at h5
      subst hcs
      simp [generateHtmlWithStyles, emittedElemCount, FigmaNode.visible,
        FigmaNode.type, FigmaNode.children, h1, h2, h3, h4, Bool.false_eq_true,
        emittedElemCounts]
    · intro depth parent st
      simp [genChildren, emittedElemCounts]
    · intro c rest depth parent st r1 ih1 ih2
      have hr1 : r1 = generateHtmlWithStyles c depth parent st := rfl
      rw [hr1] at ih2
      simp only [genChildren, emittedElemCounts, List.length_append]
      omega
  · intro entries
    induction entries with
    | nil => rfl
    | cons e rest ih =>
      by_cases h : generateNodeStyles e.node e.parent = ""
      · have h1 : cssBlocks (e :: rest) = cssBlocks rest := by
          unfold cssBlocks
          rw [List.filterMap_cons]
          dsimp only
          rw [if_pos h]
        rw [h1, List.filter_cons]
        have h2 : (decide (generateNodeStyles e.node e.parent ≠ "")) = false := by
          simp [h]
        rw [h2]
        simp only [Bool.false_eq_true, if_false, ite_false]
        exact ih
      · have h1 : ∃ blk, cssBlocks (e :: rest) = blk :: cssBlocks rest := by
          unfold cssBlocks
          rw [List.filterMap_cons]
          dsimp only
          rw [if_neg h]
          exact ⟨_, rfl⟩
        obtain ⟨blk, h1⟩ := h1
        rw [h1, List.filter_cons]
        have h2 : (decide (generateNodeStyles e.node e.parent ≠ "")) = true := by
          simp [h]
        rw [h2]
        simp only [if_pos, ite_true, List.length_cons]
        omega

end Figma

namespace Figma

/-- A text-color line never contains `background-color`. -/
theorem color_line_no_bg (c : FigmaColor) (o : Option ℚ) :
    strIncludes ("  color: " ++ rgbaToString c o ++ ";") "background-color" = false := by
  refine strIncludes_three_false _ _ _ _ colorOK (rgbaToString_colorOK c o)
    (rgbaToString_ne_nil c o) ?_
  decide

/-- A text-color line never matches the shorthand border regex. -/
theorem matchBorderLine_color (v : String) :
    matchBorderLine ("  color: " ++ v) = false := rfl

/-- When the first fill is solid with a color, `textColorApply` appends
the corresponding `color:` line (no visibility check, lines 392-404). -/
theorem textColorApply_adds (node : FigmaNode) (fill : Paint) (rest : List Paint)
    (col : FigmaColor) (l : List String)
    (hf : node.fills = some (fill :: rest))
    (hft : fill.type = "SOLID") (hc : fill.color = some col) :
    ("  color: " ++ rgbaToString col fill.opacity ++ ";") ∈ textColorApply node l := by
  unfold textColorApply
  rw [hf]
  dsimp only
  rw [hc]
  rw [if_pos ⟨hft, rfl⟩]
  refine mem_removeFirstBy _ _ _
    (List.mem_append_right _ (List.mem_singleton.mpr rfl)) ?_
  exact color_line_no_bg col fill.opacity

section

attribute [local semireducible] Rat.add Rat.mul Rat.sub Rat.inv Rat.ofScientific

/-- C10 counterexample: a text node with a visible solid first fill but
no style block gets a `background-color` rule from the fill path, yet no
text `color:` rule at all, because the whole text block (including its
color path) only runs when the node has a style. -/
theorem figma_c10_counterexample :
    nodeTextFillNoStyle.type = "TEXT" ∧
    nodeTextFillNoStyle.fills = some [redSolid] ∧
    redSolid.type = "SOLID" ∧ redSolid.color.isSome = true ∧
    (generateNodeStylesList nodeTextFillNoStyle none).all
      (fun s => !strStartsWith s "  color:") = true := by
  decide

end

/-- C10 amended: for every text node carrying a style block whose first
fill is solid with a color, the text-color path emits the `color:` rule
even when the fill's visibility flag is explicitly false (it never
checks visibility), while the background path checks that flag and emits
nothing for such a fill. -/
theorem figma_c10_amended (node : FigmaNode) (parent : Option FigmaNode)
    (fill : Paint) (rest : List Paint) (col : FigmaColor) (ts : TypeStyle)
    (hty : node.type = "TEXT") (hst : node.style = some ts)
    (hf : node.fills = some (fill :: rest))
    (hft : fill.type = "SOLID") (hc : fill.color = some col)
    (hv : fill.visible = some false) :
    ("  color: " ++ rgbaToString col fill.opacity ++ ";") ∈
      generateNodeStylesList node parent ∧ fillBlock node = [] := by
  constructor
  · unfold generateNodeStylesList
    dsimp only
    refine postProcess_mem _ _ ?_ (matchBorderLine_color _)
    refine List.mem_append_left _ ?_
    refine List.mem_append_left _ ?_
    refine layoutBlockApply_mem node parent _ _ ?_
    unfold textBlockApply
    rw [if_pos hty, hst]
    dsimp only
    refine List.mem_append_left _ ?_
    exact textColorApply_adds node fill rest col _ hf hft hc
  · unfold fillBlock
    rw [hf]
    dsimp only
    rw [if_pos hv]

/-- C10 witness: the hidden-fill text node gets the red `color:` rule
while its fill block is empty. -/
theorem figma_c10_amended_witness :
    ("  color: " ++ rgbaToString ⟨1, 0, 0, 1⟩ hiddenRed.opacity ++ ";") ∈
      generateNodeStylesList nodeTextHiddenFill none ∧
    fillBlock nodeTextHiddenFill = [] :=
  figma_c10_amended nodeTextHiddenFill none hiddenRed [] ⟨1, 0, 0, 1⟩ tsBasic
    rfl rfl rfl rfl rfl rfl

end Figma

namespace Figma

section

attribute [local semireducible] Rat.add Rat.mul Rat.sub Rat.inv Rat.ofScientific

/-- The final style list is the post-processing of the pre list. -/
theorem generateNodeStylesList_eq_post (node : FigmaNode) (parent : Option FigmaNode) :
    generateNodeStylesList node parent = postProcess (generateNodeStylesPre node parent) := rfl

/-- A shorthand `border:` line never contains `background-color`. -/
theorem border_line_no_bg (w : String) (c : FigmaColor) (o : Option ℚ)
    (hw : strAll numOK w = true) (hwne : w.data ≠ []) :
    strIncludes ("  border: " ++ w ++ "px solid " ++ rgbaToString c o ++ ";")
      "background-color" = false := by
  rw [strAppend_assoc "  border: " w "px solid ",
    strAppend_assoc "  border: " (w ++ "px solid ") (rgbaToString c o)]
  refine strIncludes_three_false _ _ _ _ paintOK ?_ ?_ ?_
  · rw [strAll_append]
    refine Bool.and_eq_true_iff.mpr ⟨?_, ?_⟩
    · rw [strAll_append]
      refine Bool.and_eq_true_iff.mpr ⟨?_, ?_⟩
      · exact strAll_mono numOK paintOK w
          (fun ch hc => paintOK_of_colorOK ch (colorOK_of_numOK ch hc)) hw
      · decide
    · exact strAll_mono colorOK paintOK (rgbaToString c o)
        (fun ch hc => paintOK_of_colorOK ch hc) (rgbaToString_colorOK c o)
  · intro h
    rw [String.data_append, String.data_append] at h
    rcases List.append_eq_nil.mp h with ⟨h1, _⟩
    rcases List.append_eq_nil.mp h1 with ⟨h2, _⟩
    exact hwne h2
  · decide

/-- Lines 341-342 of `strokeBlock` (source lines 327-328): a visible
colored first stroke with CENTER alignment emits exactly the single
uniform shorthand border, whatever the radius analysis says. -/
theorem strokeBlock_center (node : FigmaNode) (info : RadiusInfo)
    (stroke : Paint) (rest : List Paint) (col : FigmaColor)
    (hs : node.strokes = some (stroke :: rest))
    (hw : truthyQ node.strokeWeight = true)
    (hv : ¬stroke.visible = some false)
    (hc : stroke.color = some col)
    (ha : node.strokeAlign = some "CENTER") :
    strokeBlock node info =
      ["  border: " ++ numToString (round2 (node.strokeWeight.getD 0)) ++
        "px solid " ++ rgbaToString col stroke.opacity ++ ";"] := by
  unfold strokeBlock
  rw [hs]
  dsimp only
  rw [if_pos hw, if_neg hv, hc]
  dsimp only
  rw [ha]
  simp

/-- C4 counterexample: on a CENTER-aligned stroke with "top rounded
only" radii [8,8,0,0], the stroke step does emit the uniform border,
but the post-process of lines 503-528 replaces it by left/right/top
sides, so the final style has no uniform border rule and the bottom
side is suppressed. -/
theorem figma_c4_counterexample :
    nodeCenterTop.strokeAlign = some "CENTER" ∧
    strokeBlock nodeCenterTop (radiusInfo nodeCenterTop) =
      ["  border: 2px solid rgb(255, 0, 0);"] ∧
    "  border: 2px solid rgb(255, 0, 0);" ∉ generateNodeStylesList nodeCenterTop none ∧
    "  border-bottom: 2px solid rgb(255, 0, 0);" ∉
      generateNodeStylesList nodeCenterTop none ∧
    "  border-left: 2px solid rgb(255, 0, 0);" ∈ generateNodeStylesList nodeCenterTop none := by
  decide

/-- C4 amended: a CENTER-aligned visible colored first stroke makes the
stroke step emit exactly one uniform four-side border rule with no
box-sizing override, for every corner-radius configuration; the uniform
rule survives to the final style list provided no line of the
pre-post-process list is a `border-radius:` line matching the "top
rounded only" pattern (otherwise the post-process splits it into
left/right/top sides). -/
theorem figma_c4_amended (node : FigmaNode) (parent : Option FigmaNode)
    (stroke : Paint) (rest : List Paint) (col : FigmaColor)
    (hs : node.strokes = some (stroke :: rest))
    (hw : truthyQ node.strokeWeight = true)
    (hv : ¬stroke.visible = some false)
    (hc : stroke.color = some col)
    (ha : node.strokeAlign = some "CENTER")
    (hnt : ∀ s ∈ generateNodeStylesPre node parent,
      strIncludes s "border-radius:" = true → searchTop s = false) :
    strokeBlock node (radiusInfo node) =
      ["  border: " ++ numToString (round2 (node.strokeWeight.getD 0)) ++
        "px solid " ++ rgbaToString col stroke.opacity ++ ";"] ∧
    ("  border: " ++ numToString (round2 (node.strokeWeight.getD 0)) ++
      "px solid " ++ rgbaToString col stroke.opacity ++ ";") ∈
      generateNodeStylesList node parent := by
  have hblk := strokeBlock_center node (radiusInfo node) stroke rest col hs hw hv hc ha
  refine ⟨hblk, ?_⟩
  rw [generateNodeStylesList_eq_post, postProcess_eq_self _ hnt]
  unfold generateNodeStylesPre
  dsimp only
  refine List.mem_append_left _ ?_
  refine List.mem_append_left _ ?_
  refine layoutBlockApply_mem node parent _ _ ?_
  refine textBlockApply_mem node _ _ ?_
    (border_line_no_bg _ col stroke.opacity (numToString_numOK _) (numToString_ne_nil _))
  refine List.mem_append_left _ ?_
  refine List.mem_append_left _ ?_
  refine List.mem_append_right _ ?_
  rw [hblk]
  exact List.mem_singleton.mpr rfl

/-- C4 witness: the plain CENTER-stroked rectangle keeps its single
uniform border in the final style list. -/
theorem figma_c4_amended_witness :
    strokeBlock nodeCenterPlain (radiusInfo nodeCenterPlain) =
      ["  border: " ++ numToString (round2 (nodeCenterPlain.strokeWeight.getD 0)) ++
        "px solid " ++ rgbaToString ⟨1, 0, 0, 1⟩ redSolid.opacity ++ ";"] ∧
    ("  border: " ++ numToString (round2 (nodeCenterPlain.strokeWeight.getD 0)) ++
      "px solid " ++ rgbaToString ⟨1, 0, 0, 1⟩ redSolid.opacity ++ ";") ∈
      generateNodeStylesList nodeCenterPlain none :=
  figma_c4_amended nodeCenterPlain none redSolid [] ⟨1, 0, 0, 1⟩
    rfl rfl (by decide) rfl rfl (by decide)

end

end Figma

namespace Figma

section

attribute [local semireducible] Rat.add Rat.mul Rat.sub Rat.inv Rat.ofScientific

/-- C6 counterexample: a gradient fill with stops but absent handle
positions does not have its background rule omitted; `generateLinearGradient`
degrades to the value `transparent` and the rule `background: transparent`
is still emitted. -/
theorem figma_c6_counterexample :
    gradNoHandles.gradientHandlePositions = none ∧
    gradNoHandles.gradientStops.isSome = true ∧
    nodeGradNoHandles.fills = some [gradNoHandles] ∧
    "  background: transparent;" ∈ generateNodeStylesList nodeGradNoHandles none := by
  decide

/-- C6 amended: malformed nodes degrade without error, but in two
different ways.  A missing bounding box omits the position/size rules, a
text node without a style block omits every text rule, and a gradient
fill with absent stops omits the background rule; a gradient fill with
stops but absent handles instead emits `background: transparent` (a
degraded value, not an omission).  All style functions are total, so no
node can abort the traversal. -/
theorem figma_c6_amended (node : FigmaNode) (parent : Option FigmaNode) :
    (node.absoluteBoundingBox = none → posSizeBlock node parent = []) ∧
    (node.style = none → ∀ l, textBlockApply node l = l) ∧
    (∀ fill rest, node.fills = some (fill :: rest) → fill.type = "GRADIENT_LINEAR" →
      fill.gradientStops = none → fillBlock node = []) ∧
    (∀ fill rest, node.fills = some (fill :: rest) → fill.type = "GRADIENT_LINEAR" →
      ¬fill.visible = some false → fill.gradientStops.isSome = true →
      fill.gradientHandlePositions = none →
      "  background: transparent;" ∈ generateNodeStylesList node parent) := by
  refine ⟨?_, ?_, ?_, ?_⟩
  · intro h
    unfold posSizeBlock
    rw [h]
  · intro h l
    unfold textBlockApply
    split
    · rw [h]
    · rfl
  · intro fill rest hf hty hstops
    unfold fillBlock
    rw [hf]
    dsimp only
    split_ifs with h1 h2 h3
    · rfl
    · rw [hty] at h2
      exact absurd h2.1 (by decide)
    · rw [hstops] at h3
      simp at h3
    · rfl
  · intro fill rest hf hty hv hstops hh
    have hfb : fillBlock node = ["  background: transparent;"] := by
      unfold fillBlock
      rw [hf]
      dsimp only
      rw [if_neg hv]
      rw [if_neg (fun h => absurd (hty ▸ h.1) (by decide))]
      rw [if_pos ⟨hty, hstops⟩]
      obtain ⟨stops, hst⟩ := Option.isSome_iff_exists.mp hstops
      unfold generateLinearGradient
      rw [hst, hh]
      rfl
    refine generateNodeStylesList_mem node parent _ ?_ (by decide) (by decide)
    refine List.mem_append_left _ ?_
    refine List.mem_append_left _ ?_
    refine List.mem_append_left _ ?_
    refine List.mem_append_right _ ?_
    rw [hfb]
    exact List.mem_singleton.mpr rfl

/-- C6 witness: the no-handle gradient node receives the degraded
`background: transparent` rule. -/
theorem figma_c6_amended_witness :
    "  background: transparent;" ∈ generateNodeStylesList nodeGradNoHandles none :=
  (figma_c6_amended nodeGradNoHandles none).2.2.2 gradNoHandles [] rfl rfl
    (by decide) rfl rfl

end

end Figma

namespace Figma

/-- `digChar` of a nonzero digit is not `'0'`. -/
theorem digChar_ne_zero (n : Nat) (h1 : 1 ≤ n) (h2 : n < 10) : digChar n ≠ '0' := by
  interval_cases n <;> decide

/-- With adequate fuel, the digits of a positive number start with a
nonzero digit. -/
theorem natToCharsAux_head (fuel : Nat) : ∀ n, 1 ≤ n → n < 10 ^ fuel →
    ∃ d ds, natToCharsAux fuel n = d :: ds ∧ d ≠ '0' := by
  induction fuel with
  | zero =>
    intro n h1 h2
    simp at h2
    omega
  | succ fuel ih =>
    intro n h1 h2
    by_cases h : n < 10
    · refine ⟨digChar n, [], ?_, digChar_ne_zero n h1 h⟩
      show natToCharsAux (fuel + 1) n = _
      rw [natToCharsAux, if_pos h]
    · have h1' : 1 ≤ n / 10 := by
        rw [Nat.le_div_iff_mul_le (by norm_num)]
        omega
      have h2' : n / 10 < 10 ^ fuel := by
        rw [Nat.div_lt_iff_lt_mul (by norm_num)]
        calc n < 10 ^ (fuel + 1) := h2
          _ = 10 ^ fuel * 10 := by ring
      obtain ⟨d, ds, hds, hd⟩ := ih (n / 10) h1' h2'
      refine ⟨d, ds ++ [digChar (n % 10)], ?_, hd⟩
      rw [natToCharsAux, if_neg h, hds]
      rfl

/-- The decimal digits of a positive natural start with a nonzero
digit. -/
theorem natToChars_head (n : Nat) (h : 1 ≤ n) :
    ∃ d ds, natToChars n = d :: ds ∧ d ≠ '0' := by
  refine natToCharsAux_head (n + 1) n h ?_
  calc n < 10 ^ n := Nat.lt_pow_self (by norm_num) n
    _ ≤ 10 ^ (n + 1) := Nat.pow_le_pow_right (by norm_num) (Nat.le_succ n)

/-- The printed form of a positive rational starts either with a nonzero
digit or with `0.`. -/
theorem numToString_pos_shape (q : ℚ) (h : 0 < q) :
    (∃ d ds, (numToString q).data = d :: ds ∧ d ≠ '0') ∨
    (∃ ds, (numToString q).data = '0' :: '.' :: ds) := by
  unfold numToString
  dsimp only
  rw [if_neg (not_lt.mpr h.le), abs_of_pos h]
  by_cases hfr : q - (((⌊q⌋).toNat : ℚ)) = 0
  · rw [if_pos hfr]
    left
    have hip : 1 ≤ (⌊q⌋).toNat := by
      by_contra hc
      push_neg at hc
      rw [Nat.lt_one_iff] at hc
      rw [hc] at hfr
      push_cast at hfr
      linarith
    obtain ⟨d, ds, hds, hd⟩ := natToChars_head _ hip
    refine ⟨d, ds, ?_, hd⟩
    show [] ++ natToChars (⌊q⌋).toNat = d :: ds
    rw [hds]
    rfl
  · rw [if_neg hfr]
    by_cases hip : 1 ≤ (⌊q⌋).toNat
    · left
      obtain ⟨d, ds, hds, hd⟩ := natToChars_head _ hip
      refine ⟨d, (ds ++ ['.']) ++ fracChars 40 (q - (((⌊q⌋).toNat : ℚ))), ?_, hd⟩
      show (([] ++ natToChars (⌊q⌋).toNat) ++ ['.']) ++
        fracChars 40 (q - (((⌊q⌋).toNat : ℚ))) = _
      rw [hds]
      simp
    · right
      have h0 : (⌊q⌋).toNat = 0 := by omega
      rw [h0]
      refine ⟨fracChars 40 (q - ((0 : Nat) : ℚ)), ?_⟩
      show (([] ++ natToChars 0) ++ ['.']) ++ fracChars 40 (q - ((0 : Nat) : ℚ)) = _
      rfl

/-- The "bottom rounded only" anchored regex cannot match a radii string
whose first value is positive. -/
theorem matchBottomAnchored_pos (q : ℚ) (h : 0 < q) (tail : String) :
    matchBottomAnchored (numToString q ++ tail) = false := by
  unfold matchBottomAnchored
  rw [String.data_append]
  rcases numToString_pos_shape q h with ⟨d, ds, hds, hd⟩ | ⟨ds, hds⟩ <;> rw [hds]
  · have hbeq : (d == '0') = false := by
      rw [Bool.eq_false_iff]
      intro hb
      exact hd (by exact beq_iff_eq.mp hb)
    rw [List.cons_append]
    have hnone : eatLit "0px 0px ".data (d :: (ds ++ tail.data)) = none := by
      show (if d == '0' then eatLit "px 0px ".data (ds ++ tail.data) else none) = none
      rw [hbeq]
      rfl
    rw [hnone]
    rfl
  · rw [List.cons_append, List.cons_append]
    have hnone : eatLit "0px 0px ".data ('0' :: '.' :: (ds ++ tail.data)) = none := by
      show (if ('0' : Char) == '0' then
        eatLit "px 0px ".data ('.' :: (ds ++ tail.data)) else none) = none
      rw [if_pos (by decide)]
      show (if ('.' : Char) == 'p' then
        eatLit "x 0px ".data (ds ++ tail.data) else none) = none
      rw [if_neg (by decide)]
    rw [hnone]
    rfl

end Figma

namespace Figma

section

attribute [local semireducible] Rat.add Rat.mul Rat.sub Rat.inv Rat.ofScientific

/-- A string ending in the literal `px` is not empty. -/
theorem append_px_ne_empty (x : String) : x ++ "px" ≠ "" := by
  intro hcon
  have hd : x.data ++ "px".data = [] := by
    have := congrArg String.data hcon
    rw [String.data_append] at this
    exact this
  exact absurd (List.append_eq_nil.mp hd).2 (by decide)

/-- The data of a string ending in the literal `px` is not `[]`. -/
theorem append_px_data_ne_nil (x : String) : (x ++ "px").data ≠ [] := by
  rw [String.data_append]
  intro hcon
  exact absurd (List.append_eq_nil.mp hcon).2 (by decide)

/-- Every character of a printed number is a paint character. -/
theorem numToString_paintOK (q : ℚ) : strAll paintOK (numToString q) = true :=
  strAll_mono numOK paintOK _
    (fun ch hc => paintOK_of_colorOK ch (colorOK_of_numOK ch hc)) (numToString_numOK q)

/-- Every character of a four-value radii string is a paint character. -/
theorem strAll_radii (a b c d : ℚ) :
    strAll paintOK (numToString a ++ "px " ++ numToString b ++ "px " ++
      numToString c ++ "px " ++ numToString d ++ "px") = true := by
  simp only [strAll_append, Bool.and_eq_true]
  exact ⟨⟨⟨⟨⟨⟨⟨numToString_paintOK a, by decide⟩, numToString_paintOK b⟩, by decide⟩,
    numToString_paintOK c⟩, by decide⟩, numToString_paintOK d⟩, by decide⟩

/-- Two prefixes of one string are comparable. -/
theorem starts_incompat (s p q : String) (hp : strStartsWith s p = true)
    (hq : strStartsWith s q = true) :
    listPre p.data q.data = true ∨ listPre q.data p.data = true := by
  rw [strStartsWith, listPre_iff] at hp hq
  obtain ⟨t1, h1⟩ := hp
  obtain ⟨t2, h2⟩ := hq
  have h3 : p.data ++ t1 = q.data ++ t2 := by rw [← h1, ← h2]
  rcases List.append_eq_append_iff.mp h3 with ⟨a2, ha, _⟩ | ⟨c2, hc, _⟩
  · exact Or.inl ((listPre_iff _ _).mpr ⟨a2, ha⟩)
  · exact Or.inr ((listPre_iff _ _).mpr ⟨c2, hc⟩)

/-- A string starting with one of `ps` cannot also start with a prefix
incomparable with every member of `ps`. -/
theorem startsOneOf_excl (s q : String) (ps : List String)
    (h : startsOneOf s ps = true)
    (hok : ps.all (fun p => !listPre p.data q.data && !listPre q.data p.data) = true) :
    strStartsWith s q = false := by
  unfold startsOneOf at h
  rw [List.any_eq_true] at h
  obtain ⟨p, hmem, hp⟩ := h
  rw [List.all_eq_true] at hok
  have h2 := hok p hmem
  rw [Bool.and_eq_true, Bool.not_eq_true', Bool.not_eq_true'] at h2
  by_contra hc
  rw [Bool.not_eq_false] at hc
  rcases starts_incompat s p q hp hc with h3 | h3
  · rw [h2.1] at h3
    exact Bool.false_ne_true h3
  · rw [h2.2] at h3
    exact Bool.false_ne_true h3

/-- A five-part concatenation starts with its first part. -/
theorem strStartsWith_chain4 (p a b c d : String) :
    strStartsWith (p ++ a ++ b ++ c ++ d) p = true := by
  have h : p ++ a ++ b ++ c ++ d = p ++ (a ++ b ++ c ++ d) := by
    apply String.ext
    simp [String.data_append]
  rw [h]
  exact strStartsWith_append_self p (a ++ b ++ c ++ d)

/-- Every position/size line starts with one of six prefixes. -/
theorem posSizeBlock_starts (node : FigmaNode) (parent : Option FigmaNode) (s : String)
    (h : s ∈ posSizeBlock node parent) :
    startsOneOf s ["  position: ", "  left: ", "  top: ", "  width: ",
      "  height: ", "  min-height: "] = true := by
  unfold posSizeBlock at h
  rcases hb : node.absoluteBoundingBox with _ | box
  · rw [hb] at h
    simp at h
  · rw [hb] at h
    dsimp only at h
    rcases List.mem_append.mp h with h1 | h1
    · rcases List.mem_append.mp h1 with h2 | h2
      · rcases parent with _ | p
        · simp only [List.mem_singleton] at h2
          subst h2
          decide
        · dsimp only at h2
          by_cases hal : truthyStr p.layoutMode = true
          · rw [if_pos hal] at h2
            simp only [List.mem_singleton] at h2
            subst h2
            decide
          · rw [if_neg hal] at h2
            simp only [List.mem_cons, List.not_mem_nil, or_false] at h2
            rcases h2 with rfl | rfl | rfl
            · decide
            · exact startsOneOf_of_mem _ "  left: " _ (by decide) (strStartsWith_two _ _ _)
            · exact startsOneOf_of_mem _ "  top: " _ (by decide) (strStartsWith_two _ _ _)
      · simp only [List.mem_singleton] at h2
        subst h2
        exact startsOneOf_of_mem _ "  width: " _ (by decide) (strStartsWith_two _ _ _)
    · split_ifs at h1 <;>
        simp only [List.mem_singleton] at h1 <;> subst h1
      · exact startsOneOf_of_mem _ "  height: " _ (by decide) (strStartsWith_two _ _ _)
      · exact startsOneOf_of_mem _ "  min-height: " _ (by decide) (strStartsWith_two _ _ _)

/-- Every fill line starts with a background prefix. -/
theorem fillBlock_starts (node : FigmaNode) (s : String) (h : s ∈ fillBlock node) :
    startsOneOf s ["  background-color: ", "  background: "] = true := by
  unfold fillBlock at h
  rcases hf : node.fills with _ | fl
  · rw [hf] at h
    simp at h
  · rw [hf] at h
    cases fl with
    | nil => simp at h
    | cons fill rest =>
      dsimp only at h
      split_ifs at h with h1 h2 h3
      · simp at h
      · rcases hc : fill.color with _ | c
        · rw [hc] at h
          simp at h
        · rw [hc] at h
          simp only [List.mem_singleton] at h
          subst h
          exact startsOneOf_of_mem _ "  background-color: " _ (by decide)
            (strStartsWith_two _ _ _)
      · simp only [List.mem_singleton] at h
        subst h
        exact startsOneOf_of_mem _ "  background: " _ (by decide)
          (strStartsWith_two _ _ _)
      · simp at h

/-- Every opacity line starts with `  opacity: `. -/
theorem opacityBlock_starts (node : FigmaNode) (s : String) (h : s ∈ opacityBlock node) :
    startsOneOf s ["  opacity: "] = true := by
  unfold opacityBlock at h
  rcases ho : node.opacity with _ | o
  · rw [ho] at h
    simp at h
  · rw [ho] at h
    dsimp only at h
    split_ifs at h
    · simp only [List.mem_singleton] at h
      subst h
      exact startsOneOf_of_mem _ "  opacity: " _ (by decide) (strStartsWith_two _ _ _)
    · simp at h

/-- Every effects line starts with `  box-shadow: `. -/
theorem effectsBlock_starts (node : FigmaNode) (s : String) (h : s ∈ effectsBlock node) :
    startsOneOf s ["  box-shadow: "] = true := by
  unfold effectsBlock at h
  rcases he : node.effects with _ | effs
  · rw [he] at h
    simp at h
  · rw [he] at h
    dsimp only at h
    split_ifs at h
    · simp only [List.mem_singleton] at h
      subst h
      exact startsOneOf_of_mem _ "  box-shadow: " _ (by decide) (strStartsWith_two _ _ _)
    · simp at h
    · simp at h

/-- Every clip line starts with `  overflow: `. -/
theorem clipBlock_starts (node : FigmaNode) (s : String) (h : s ∈ clipBlock node) :
    startsOneOf s ["  overflow: "] = true := by
  unfold clipBlock at h
  split_ifs at h
  · simp only [List.mem_singleton] at h
    subst h
    decide
  · simp at h

/-- The only radius-push line is the `border-radius` line. -/
theorem radiusPushBlock_shape (info : RadiusInfo) (s : String)
    (h : s ∈ radiusPushBlock info) :
    s = "  border-radius: " ++ info.radiiString ++ ";" := by
  unfold radiusPushBlock at h
  split_ifs at h
  · simpa using h
  · simp at h

end

end Figma

namespace Figma

section

attribute [local semireducible] Rat.add Rat.mul Rat.sub Rat.inv Rat.ofScientific

/-- A `pre ++ <number>px solid <color>;` line never contains
`background-color`, provided the pattern cannot occur across the
concrete prefix and suffix. -/
theorem pre_solid_line_no_bg (pre w : String) (c : FigmaColor) (o : Option ℚ)
    (hw : strAll numOK w = true) (hwne : w.data ≠ [])
    (hno : canOccurIn "background-color".data pre.data ";".data paintOK = false) :
    strIncludes (pre ++ w ++ "px solid " ++ rgbaToString c o ++ ";")
      "background-color" = false := by
  rw [strAppend_assoc pre w "px solid ",
    strAppend_assoc pre (w ++ "px solid ") (rgbaToString c o)]
  refine strIncludes_three_false _ _ _ _ paintOK ?_ ?_ hno
  · rw [strAll_append]
    refine Bool.and_eq_true_iff.mpr ⟨?_, ?_⟩
    · rw [strAll_append]
      refine Bool.and_eq_true_iff.mpr ⟨?_, ?_⟩
      · exact strAll_mono numOK paintOK w
          (fun ch hch => paintOK_of_colorOK ch (colorOK_of_numOK ch hch)) hw
      · decide
    · exact strAll_mono colorOK paintOK (rgbaToString c o)
        (fun ch hch => paintOK_of_colorOK ch hch) (rgbaToString_colorOK c o)
  · intro hcon
    rw [String.data_append, String.data_append] at hcon
    rcases List.append_eq_nil.mp hcon with ⟨h1, _⟩
    rcases List.append_eq_nil.mp h1 with ⟨h2, _⟩
    exact hwne h2

/-- A `border-radius` line whose value is made of paint characters never
contains `background-color`. -/
theorem radius_line_no_bg (rs : String) (hrs : strAll paintOK rs = true)
    (hne : rs.data ≠ []) :
    strIncludes ("  border-radius: " ++ rs ++ ";") "background-color" = false :=
  strIncludes_three_false _ _ _ _ paintOK hrs hne (by decide)

/-- A `box-sizing` line never matches the shorthand border regex. -/
theorem matchBorderLine_boxsizing :
    matchBorderLine "  box-sizing: border-box;" = false := rfl

/-- A `border-left:` side line never matches the shorthand border
regex. -/
theorem matchBorderLine_sideLeft (w c2 : String) :
    matchBorderLine ("  border-left: " ++ w ++ "px solid " ++ c2 ++ ";") = false := rfl

/-- A `border-right:` side line never matches the shorthand border
regex. -/
theorem matchBorderLine_sideRight (w c2 : String) :
    matchBorderLine ("  border-right: " ++ w ++ "px solid " ++ c2 ++ ";") = false := rfl

/-- A `border-top:` side line never matches the shorthand border
regex. -/
theorem matchBorderLine_sideTop (w c2 : String) :
    matchBorderLine ("  border-top: " ++ w ++ "px solid " ++ c2 ++ ";") = false := rfl

/-- A `border-radius:` line never matches the shorthand border regex. -/
theorem matchBorderLine_bradius (v : String) :
    matchBorderLine ("  border-radius: " ++ v ++ ";") = false := rfl

/-- The corner-radius analysis on a "top rounded only" pattern (top
radii surviving the 0.01 rounding, bottom radii rounding to zero):
`hasTopRadius`, no `hasBottomRadius`, and the four-value radii string.
The regex force-check of lines 281-293 cannot reach the "bottom rounded
only" branch because the radii string starts with a positive value. -/
theorem radiusInfo_top_only (node : FigmaNode) (a b c d : ℚ)
    (hr : node.rectangleCornerRadii = some [a, b, c, d])
    (hta : 0 < round2 a) (hc0 : round2 c = 0) (hd0 : round2 d = 0) :
    radiusInfo node = ⟨true, false,
      numToString (round2 a) ++ "px " ++ numToString (round2 b) ++ "px " ++
        numToString (round2 c) ++ "px " ++ numToString (round2 d) ++ "px"⟩ := by
  have hraw : radiusInfoRaw node = ⟨true, false,
      numToString (round2 a) ++ "px " ++ numToString (round2 b) ++ "px " ++
        numToString (round2 c) ++ "px " ++ numToString (round2 d) ++ "px"⟩ := by
    unfold radiusInfoRaw
    rw [hr]
    dsimp only
    rw [if_pos (Or.inr (Or.inr (Or.inr (ne_of_gt hta))))]
    have e1 : (decide (0 < round2 a) || decide (0 < round2 b)) = true := by
      rw [decide_eq_true hta]
      rfl
    have e2 : (decide (0 < round2 c) || decide (0 < round2 d)) = false := by
      rw [hc0, hd0]
      decide
    rw [e1, e2]
  have hne : (numToString (round2 a) ++ "px " ++ numToString (round2 b) ++ "px " ++
      numToString (round2 c) ++ "px " ++ numToString (round2 d) ++ "px") ≠ "" :=
    append_px_ne_empty _
  unfold radiusInfo
  rw [hraw]
  dsimp only
  rw [if_pos hne]
  by_cases hmt : matchTopAnchored (numToString (round2 a) ++ "px " ++
      numToString (round2 b) ++ "px " ++ numToString (round2 c) ++ "px " ++
      numToString (round2 d) ++ "px") = true
  · rw [if_pos hmt]
  · rw [if_neg hmt]
    have hassoc : (numToString (round2 a) ++ "px " ++ numToString (round2 b) ++ "px " ++
        numToString (round2 c) ++ "px " ++ numToString (round2 d) ++ "px") =
        numToString (round2 a) ++ ("px " ++ (numToString (round2 b) ++ ("px " ++
          (numToString (round2 c) ++ ("px " ++ (numToString (round2 d) ++ "px")))))) := by
      apply String.ext
      simp [String.data_append]
    have hmb : matchBottomAnchored (numToString (round2 a) ++ "px " ++
        numToString (round2 b) ++ "px " ++ numToString (round2 c) ++ "px " ++
        numToString (round2 d) ++ "px") = false := by
      rw [hassoc]
      exact matchBottomAnchored_pos _ hta _
    rw [hmb]
    rfl

/-- Lines 296-334 on an INSIDE-aligned visible colored first stroke with
top-only radii: box-sizing plus the three non-bottom border sides. -/
theorem strokeBlock_inside_top (node : FigmaNode) (info : RadiusInfo)
    (stroke : Paint) (rest : List Paint) (col : FigmaColor)
    (hs : node.strokes = some (stroke :: rest))
    (hw : truthyQ node.strokeWeight = true)
    (hv : ¬stroke.visible = some false)
    (hc : stroke.color = some col)
    (ha : node.strokeAlign = some "INSIDE")
    (ht : info.hasTopRadius = true)
    (hb : info.hasBottomRadius = false) :
    strokeBlock node info =
      ["  box-sizing: border-box;",
       "  border-left: " ++ numToString (round2 (node.strokeWeight.getD 0)) ++
         "px solid " ++ rgbaToString col stroke.opacity ++ ";",
       "  border-right: " ++ numToString (round2 (node.strokeWeight.getD 0)) ++
         "px solid " ++ rgbaToString col stroke.opacity ++ ";",
       "  border-top: " ++ numToString (round2 (node.strokeWeight.getD 0)) ++
         "px solid " ++ rgbaToString col stroke.opacity ++ ";"] := by
  unfold strokeBlock
  rw [hs]
  dsimp only
  rw [if_pos hw, if_neg hv, hc]
  dsimp only
  rw [ha]
  dsimp only
  rw [ht, hb]
  simp

end

end Figma

namespace Figma

section

attribute [local semireducible] Rat.add Rat.mul Rat.sub Rat.inv Rat.ofScientific

/-- C3 counterexample: top radii of 0.004 are nonzero, yet they round to
zero at the converter's 0.01 precision, so the "top rounded only"
pattern is not detected: the INSIDE-aligned stroke emits the uniform
border and no border-left line. -/
theorem figma_c3_counterexample :
    nodeInsideTiny.rectangleCornerRadii = some [1 / 250, 1 / 250, 0, 0] ∧
    ¬(1 / 250 : ℚ) = 0 ∧
    nodeInsideTiny.strokeAlign = some "INSIDE" ∧
    (generateNodeStylesList nodeInsideTiny none).all
      (fun s => !strStartsWith s "  border-left") = true ∧
    "  border: 2px solid rgb(255, 0, 0);" ∈ generateNodeStylesList nodeInsideTiny none := by
  decide

/-- C3 amended: when the top radii survive the 0.01 rounding (and the
bottom radii round to zero), a node with an INSIDE-aligned visible
colored first stroke gets box-sizing, the left/right/top border sides
and the four-value border-radius string, and no line of its final style
list starts with `  border-bottom`. -/
theorem figma_c3_amended (node : FigmaNode) (parent : Option FigmaNode)
    (stroke : Paint) (rest : List Paint) (col : FigmaColor) (a b c d : ℚ)
    (hr : node.rectangleCornerRadii = some [a, b, c, d])
    (hta : 0 < round2 a) (htb : 0 < round2 b)
    (hc0 : round2 c = 0) (hd0 : round2 d = 0)
    (hs : node.strokes = some (stroke :: rest))
    (hw : truthyQ node.strokeWeight = true)
    (hv : ¬stroke.visible = some false)
    (hcc : stroke.color = some col)
    (hal : node.strokeAlign = some "INSIDE") :
    "  box-sizing: border-box;" ∈ generateNodeStylesList node parent ∧
    ("  border-left: " ++ numToString (round2 (node.strokeWeight.getD 0)) ++
      "px solid " ++ rgbaToString col stroke.opacity ++ ";") ∈
      generateNodeStylesList node parent ∧
    ("  border-right: " ++ numToString (round2 (node.strokeWeight.getD 0)) ++
      "px solid " ++ rgbaToString col stroke.opacity ++ ";") ∈
      generateNodeStylesList node parent ∧
    ("  border-top: " ++ numToString (round2 (node.strokeWeight.getD 0)) ++
      "px solid " ++ rgbaToString col stroke.opacity ++ ";") ∈
      generateNodeStylesList node parent ∧
    ("  border-radius: " ++ (numToString (round2 a) ++ "px " ++
      numToString (round2 b) ++ "px " ++ numToString (round2 c) ++ "px " ++
      numToString (round2 d) ++ "px") ++ ";") ∈ generateNodeStylesList node parent ∧
    (∀ s ∈ generateNodeStylesList node parent,
      strStartsWith s "  border-bottom" = false) := by
  have hri := radiusInfo_top_only node a b c d hr hta hc0 hd0
  have hsb := strokeBlock_inside_top node (radiusInfo node) stroke rest col hs hw hv hcc hal
    (by rw [hri]) (by rw [hri])
  have hW : strAll numOK (numToString (round2 (node.strokeWeight.getD 0))) = true :=
    numToString_numOK _
  have hWne := numToString_ne_nil (round2 (node.strokeWeight.getD 0))
  refine ⟨?_, ?_, ?_, ?_, ?_, ?_⟩
  · refine generateNodeStylesList_mem node parent _ ?_ (by decide) matchBorderLine_boxsizing
    refine List.mem_append_left _ (List.mem_append_left _ (List.mem_append_right _ ?_))
    rw [hsb]
    exact List.mem_cons_self _ _
  · refine generateNodeStylesList_mem node parent _ ?_
      (pre_solid_line_no_bg _ _ col stroke.opacity hW hWne (by decide))
      (matchBorderLine_sideLeft _ _)
    refine List.mem_append_left _ (List.mem_append_left _ (List.mem_append_right _ ?_))
    rw [hsb]
    exact List.mem_cons_of_mem _ (List.mem_cons_self _ _)
  · refine generateNodeStylesList_mem node parent _ ?_
      (pre_solid_line_no_bg _ _ col stroke.opacity hW hWne (by decide))
      (matchBorderLine_sideRight _ _)
    refine List.mem_append_left _ (List.mem_append_left _ (List.mem_append_right _ ?_))
    rw [hsb]
    exact List.mem_cons_of_mem _ (List.mem_cons_of_mem _ (List.mem_cons_self _ _))
  · refine generateNodeStylesList_mem node parent _ ?_
      (pre_solid_line_no_bg _ _ col stroke.opacity hW hWne (by decide))
      (matchBorderLine_sideTop _ _)
    refine List.mem_append_left _ (List.mem_append_left _ (List.mem_append_right _ ?_))
    rw [hsb]
    exact List.mem_cons_of_mem _ (List.mem_cons_of_mem _
      (List.mem_cons_of_mem _ (List.mem_cons_self _ _)))
  · refine generateNodeStylesList_mem node parent _ ?_
      (radius_line_no_bg _ (strAll_radii _ _ _ _) (append_px_data_ne_nil _))
      (matchBorderLine_bradius _)
    refine List.mem_append_left _ (List.mem_append_right _ ?_)
    rw [hri]
    unfold radiusPushBlock
    rw [if_pos (append_px_ne_empty _)]
    exact List.mem_singleton.mpr rfl
  · intro s hsL
    rcases mem_generateNodeStylesList node parent s hsL with
      h | h | h | h | h | h | h | h | h | h
    · exact startsOneOf_excl s _ _ (posSizeBlock_starts node parent s h) (by decide)
    · exact startsOneOf_excl s _ _ (fillBlock_starts node s h) (by decide)
    · rw [hsb] at h
      simp only [List.mem_cons, List.not_mem_nil, or_false] at h
      rcases h with rfl | rfl | rfl | rfl
      · decide
      · exact startsOneOf_excl _ _ ["  border-left: "]
          (startsOneOf_of_mem _ _ _ (List.mem_singleton_self _)
            (strStartsWith_chain4 _ _ _ _ _)) (by decide)
      · exact startsOneOf_excl _ _ ["  border-right: "]
          (startsOneOf_of_mem _ _ _ (List.mem_singleton_self _)
            (strStartsWith_chain4 _ _ _ _ _)) (by decide)
      · exact startsOneOf_excl _ _ ["  border-top: "]
          (startsOneOf_of_mem _ _ _ (List.mem_singleton_self _)
            (strStartsWith_chain4 _ _ _ _ _)) (by decide)
    · have hsh := radiusPushBlock_shape _ s h
      subst hsh
      exact startsOneOf_excl _ _ ["  border-radius: "]
        (startsOneOf_of_mem _ _ _ (List.mem_singleton_self _)
          (strStartsWith_two _ _ _)) (by decide)
    · exact startsOneOf_excl s _ _ (opacityBlock_starts node s h) (by decide)
    · exact startsOneOf_excl s _ _ h (by decide)
    · exact startsOneOf_excl s _ _ h (by decide)
    · exact startsOneOf_excl s _ _ (effectsBlock_starts node s h) (by decide)
    · exact startsOneOf_excl s _ _ (clipBlock_starts node s h) (by decide)
    · exact startsOneOf_excl s _ _ h (by decide)

/-- C3 witness: the INSIDE-stroked node with radii [8,8,0,0] gets
box-sizing, the three non-bottom sides, the radii string, and no
border-bottom line. -/
theorem figma_c3_amended_witness :
    "  box-sizing: border-box;" ∈ generateNodeStylesList nodeInsideTop none ∧
    ("  border-left: " ++ numToString (round2 (nodeInsideTop.strokeWeight.getD 0)) ++
      "px solid " ++ rgbaToString ⟨1, 0, 0, 1⟩ redSolid.opacity ++ ";") ∈
      generateNodeStylesList nodeInsideTop none ∧
    ("  border-right: " ++ numToString (round2 (nodeInsideTop.strokeWeight.getD 0)) ++
      "px solid " ++ rgbaToString ⟨1, 0, 0, 1⟩ redSolid.opacity ++ ";") ∈
      generateNodeStylesList nodeInsideTop none ∧
    ("  border-top: " ++ numToString (round2 (nodeInsideTop.strokeWeight.getD 0)) ++
      "px solid " ++ rgbaToString ⟨1, 0, 0, 1⟩ redSolid.opacity ++ ";") ∈
      generateNodeStylesList nodeInsideTop none ∧
    ("  border-radius: " ++ (numToString (round2 8) ++ "px " ++
      numToString (round2 8) ++ "px " ++ numToString (round2 0) ++ "px " ++
      numToString (round2 0) ++ "px") ++ ";") ∈ generateNodeStylesList nodeInsideTop none ∧
    (∀ s ∈ generateNodeStylesList nodeInsideTop none,
      strStartsWith s "  border-bottom" = false) :=
  figma_c3_amended nodeInsideTop none redSolid [] ⟨1, 0, 0, 1⟩ 8 8 0 0
    rfl (by decide) (by decide) (by decide) (by decide) rfl (by decide) (by decide)
    rfl rfl

end

end Figma

namespace Figma

/-- `digChar` answers `48 + n` as a code point. -/
theorem digChar_toNat (n : Nat) (h : n < 10) : (digChar n).toNat = 48 + n := by
  interval_cases n <;> decide

/-- Decoding after appending one digit. -/
theorem charsToNat_append (l : List Char) (d : Char) :
    charsToNat (l ++ [d]) = charsToNat l * 10 + (d.toNat - 48) := by
  unfold charsToNat
  rw [List.foldl_append]
  rfl

/-- With adequate fuel, decoding inverts digit printing. -/
theorem charsToNat_natToCharsAux (fuel : Nat) : ∀ n, n < 10 ^ fuel →
    charsToNat (natToCharsAux fuel n) = n := by
  induction fuel with
  | zero =>
    intro n h
    simp only [pow_zero, Nat.lt_one_iff] at h
    subst h
    rfl
  | succ fuel ih =>
    intro n h
    by_cases h10 : n < 10
    · rw [natToCharsAux, if_pos h10]
      show charsToNat [digChar n] = n
      unfold charsToNat
      simp only [List.foldl_cons, List.foldl_nil]
      rw [digChar_toNat n h10]
      omega
    · rw [natToCharsAux, if_neg h10, charsToNat_append]
      have hkid : n / 10 < 10 ^ fuel := by
        rw [Nat.div_lt_iff_lt_mul (by norm_num)]
        calc n < 10 ^ (fuel + 1) := h
          _ = 10 ^ fuel * 10 := by ring
      rw [ih (n / 10) hkid, digChar_toNat (n % 10) (Nat.mod_lt n (by norm_num))]
      omega

/-- Decoding inverts digit printing. -/
theorem charsToNat_natToChars (n : Nat) : charsToNat (natToChars n) = n := by
  refine charsToNat_natToCharsAux (n + 1) n ?_
  calc n < 10 ^ n := Nat.lt_pow_self (by norm_num) n
    _ ≤ 10 ^ (n + 1) := Nat.pow_le_pow_right (by norm_num) (Nat.le_succ n)

/-- Decimal printing of naturals is injective. -/
theorem natToString_inj (m n : Nat) (h : natToString m = natToString n) : m = n := by
  have hd : natToChars m = natToChars n := congrArg String.data h
  have h2 := congrArg charsToNat hd
  rwa [charsToNat_natToChars, charsToNat_natToChars] at h2

/-- `getClassName` preserves the class-map invariant. -/
theorem classMapSpec_getClassName (st : ConverterState) (node : FigmaNode)
    (h : classMapSpec st) : classMapSpec (getClassName st node).2 := by
  unfold getClassName
  match hl : lookupClass st.cssClasses node.id with
  | some c => exact h
  | none =>
    dsimp only
    unfold classMapSpec at h ⊢
    dsimp only
    rw [List.map_append, h, List.range_succ, List.map_append]
    rfl

/-- The traversal preserves the class-map invariant. -/
theorem classMapSpec_traverse (node : FigmaNode) (depth : Nat)
    (parent : Option FigmaNode) (st : ConverterState) (hst : classMapSpec st) :
    classMapSpec (generateHtmlWithStyles node depth parent st).2.2 := by
  have main :=
    generateHtmlWithStyles.mutual_induct
      (fun node depth parent st => classMapSpec st →
        classMapSpec (generateHtmlWithStyles node depth parent st).2.2)
      (fun cs depth parent st => classMapSpec st →
        classMapSpec (genChildren cs depth parent st).2.2)
  refine (main ?_ ?_ ?_ ?_ ?_ ?_ ?_ ?_ ?_ ?_).1 node depth parent st hst
  · intro i nm ty cs bb fl sk sw sa cr rcr ch sty ef op lm isp pl pr pt pb pa ca vis cl depth parent st h h0
    simpa [generateHtmlWithStyles, h] using h0
  · intro i nm ty cs bb fl sk sw sa cr rcr ch sty ef op lm isp pl pr pt pb pa ca vis cl depth parent st h1 h2 h3 ih h0
    simp only [FigmaNode.visible] at h1
    simp only [FigmaNode.type] at h2
    simp only [generateHtmlWithStyles, FigmaNode.visible, FigmaNode.type,
      FigmaNode.children, h1, h2, h3, if_neg, if_pos, ite_true, ite_false] at ih ⊢
    exact ih h0
  · intro i nm ty cs bb fl sk sw sa cr rcr ch sty ef op lm isp pl pr pt pb pa ca vis cl depth parent st h1 h2 h3 h0
    simp only [FigmaNode.visible] at h1
    simp only [FigmaNode.type] at h2
    try simp only [FigmaNode.children] at h3
    have hcs : cs = [] := by
      cases cs with
      | nil => rfl
      | cons a l => simp at h3
    subst hcs
    simpa [generateHtmlWithStyles, FigmaNode.visible, FigmaNode.type,
      FigmaNode.children, h1, h2] using h0
  · intro i nm ty cs bb fl sk sw sa cr rcr ch sty ef op lm isp pl pr pt pb pa ca vis cl depth parent st h1 h2 h3 h0
    simp only [FigmaNode.visible] at h1
    simp only [FigmaNode.type] at h2 h3
    simp only [generateHtmlWithStyles, FigmaNode.visible, FigmaNode.type,
      FigmaNode.children, h1, h2, h3, if_neg, if_pos, ite_true, ite_false]
    exact classMapSpec_getClassName st _ h0
  · intro i nm ty cs bb fl sk sw sa cr rcr ch sty ef op lm isp pl pr pt pb pa ca vis cl depth parent st h1 h2 h3 h4 cn hlen ih h0
    have hcn : cn = getClassName st (FigmaNode.mk i nm ty cs bb fl sk sw sa cr rcr ch sty ef op lm isp pl pr pt pb pa ca vis cl) := rfl
    rw [hcn] at ih
    simp only [FigmaNode.visible] at h1
    simp only [FigmaNode.type] at h2 h3 h4
    simp only [generateHtmlWithStyles, FigmaNode.visible, FigmaNode.type,
      FigmaNode.children, h1, h2, h3, h4, hlen, if_neg, if_pos, ite_true,
      ite_false] at ih ⊢
    exact ih (classMapSpec_getClassName st _ h0)
  · intro i nm ty cs bb fl sk sw sa cr rcr ch sty ef op lm isp pl pr pt pb pa ca vis cl depth parent st h1 h2 h3 h4 hlen h0
    simp only [FigmaNode.visible] at h1
    simp only [FigmaNode.type] at h2 h3 h4
    simp only [generateHtmlWithStyles, FigmaNode.visible, FigmaNode.type,
      FigmaNode.children, h1, h2, h3, h4, hlen, if_neg, if_pos, ite_true, ite_false]
    exact classMapSpec_getClassName st _ h0
  · intro i nm ty cs bb fl sk sw sa cr rcr ch sty ef op lm isp pl pr pt pb pa ca vis cl depth parent st h1 h2 h3 h4 h5 ih h0
    simp only [FigmaNode.visible] at h1
    simp only [FigmaNode.type] at h2 h3 h4
    simp only [generateHtmlWithStyles, FigmaNode.visible, FigmaNode.type,
      FigmaNode.children, h1, h2, h3, h4, h5, if_neg, if_pos, ite_true, ite_false,
      Bool.false_eq_true] at ih ⊢
    exact ih h0
  · intro i nm ty cs bb fl sk sw sa cr rcr ch sty ef op lm isp pl pr pt pb pa ca vis cl depth parent st h1 h2 h3 h4 h5 h0
    simp only [FigmaNode.visible] at h1
    simp only [FigmaNode.type] at h2 h3 h4
    try simp only [FigmaNode.children] at h5
    have hcs : cs = [] := by
      cases cs with
      | nil => rfl
      | cons a l => simp at h5
    subst hcs
    simpa [generateHtmlWithStyles, FigmaNode.visible, FigmaNode.type,
      FigmaNode.children, h1, h2, h3, h4, Bool.false_eq_true] using h0
  · intro depth parent st h0
    simpa [genChildren] using h0
  · intro c rest depth parent st r1 ih1 ih2 h0
    have hr1 : r1 = generateHtmlWithStyles c depth parent st := rfl
    rw [hr1] at ih2
    simp only [genChildren]
    exact ih2 (ih1 h0)

end Figma

namespace Figma

/-- C8: conversion is deterministic — `convertWithStyles` clears the
per-run state at line 104, so its markup/stylesheet output does not
depend on the incoming converter state (covering both fresh instances
and repeated calls on one instance) — and the class identifiers minted
within one conversion are pairwise distinct. -/
theorem figma_c8 :
    (∀ (node : FigmaNode) (st1 st2 : ConverterState),
      (convertWithStyles st1 node).1 = (convertWithStyles st2 node).1) ∧
    (∀ (node : FigmaNode) (st : ConverterState),
      ((convertWithStyles st node).2.cssClasses.map Prod.snd).Nodup) := by
  constructor
  · intro node st1 st2
    rfl
  · intro node st
    have hspec : classMapSpec (convertWithStyles st node).2 :=
      classMapSpec_traverse node 0 none ⟨[], 0⟩ rfl
    unfold classMapSpec at hspec
    rw [hspec]
    refine List.Nodup.map ?_ (List.nodup_range _)
    intro x y hxy
    dsimp only at hxy
    apply natToString_inj
    have hd := congrArg String.data hxy
    rw [String.data_append, String.data_append] at hd
    apply String.ext
    exact List.append_cancel_left hd

end Figma
